import Mathlib

/-!
Verification development for the `context-core` semantic extraction library.

The JavaScript sources are shallowly embedded below.  Text is modelled as
`List Char` (JS strings); JS numbers used as confidences are modelled as `ℚ`,
with an invalid/absent confidence (`undefined`, `NaN`, non-number) modelled as
`none : Option ℚ`.  A value that may be a non-string is modelled as
`Option Str` (`none` = any non-string JS value).  The `compromise` NLP library
and the JS regex engine results consumed by a module are modelled as explicit
match-data parameters ("oracles"): a function from the input text to the match
data the module would read off the analyzer, exactly at the boundary where the
source calls `doc.match(...)` / `text.match(...)`.  A JS function that may
throw is modelled as `Except Unit`.
-/

set_option linter.unusedVariables false
set_option maxRecDepth 16000

namespace ContextCore

/-- JS strings as lists of characters. -/
abbrev Str := List Char

/-- Convert a list of Lean string literals to the embedded representation. -/
def strs (l : List String) : List Str := l.map String.data

/-- JS whitespace (the forms relevant to this code base). -/
def isWs (c : Char) : Bool :=
  c == ' ' || c == '\t' || c == '\n' || c == '\r'

/-- JS `\w` word characters, used for `\b` word boundaries. -/
def isWordChar (c : Char) : Bool :=
  c.isAlpha || c.isDigit || c == '_'

/-- `String.prototype.toLowerCase` (ASCII range, which is all this code uses). -/
def lower (s : Str) : Str := s.map Char.toLower

/-- `String.prototype.trim`. -/
def jsTrim (s : Str) : Str :=
  ((s.dropWhile isWs).reverse.dropWhile isWs).reverse

/-- Does `s` start with `p`? -/
def startsWithP : Str → Str → Bool
  | [], _ => true
  | _ :: _, [] => false
  | a :: as, b :: bs => a == b && startsWithP as bs

/-- Is `n` a contiguous substring of `s` (JS `indexOf(n) !== -1`)? -/
def isSubstr (n : Str) : Str → Bool
  | [] => n.isEmpty
  | c :: t => startsWithP n (c :: t) || isSubstr n t

/-- `containsPhrase(str, phrase)` from the sources: case-insensitive substring
test, `false` when either argument is the empty string. -/
def containsPhrase (s p : Str) : Bool :=
  if s.isEmpty || p.isEmpty then false
  else isSubstr (lower p) (lower s)

/-- `containsAny(str, phrases)` from the sources. -/
def containsAny (s : Str) (ps : List Str) : Bool :=
  if s.isEmpty then false
  else ps.any (fun p => isSubstr (lower p) (lower s))

/-- `arrayContains(arr, val)` from the sources: case-insensitive exact match,
`false` for the empty string. -/
def arrayContains (arr : List Str) (v : Str) : Bool :=
  if v.isEmpty then false
  else arr.any (fun a => lower a == lower v)

/-- Strip the maximal trailing run of characters from `set`
(JS `replace(/[...]+$/g, '')`). -/
def stripTrailingRun (set : List Char) (s : Str) : Str :=
  (s.reverse.dropWhile (fun c => set.contains c)).reverse

/-- Strip one leading and one trailing quote character
(JS `replace(/^['"]|['"]$/g, '')`). -/
def stripQuotesOnce (s : Str) : Str :=
  let s1 := match s with
    | c :: t => if c == '\'' || c == '"' then t else s
    | [] => s
  match s1.reverse with
  | c :: t => if c == '\'' || c == '"' then t.reverse else s1
  | [] => s1

/-- Collapse every maximal whitespace run into the single character `r`
(JS `replace(/\s+/g, r)`); `inRun` records whether the previous character was
part of a whitespace run. -/
def collapseWsGo (r : Char) : Bool → Str → Str
  | _, [] => []
  | inRun, c :: t =>
    if isWs c then
      if inRun then collapseWsGo r true t
      else r :: collapseWsGo r true t
    else c :: collapseWsGo r false t

/-- JS `replace(/\s+/g, r)` for a single replacement character. -/
def collapseWs (r : Char) (s : Str) : Str := collapseWsGo r false s

/-- One step of JS `split(/\b(w1|w2|...)\b/)[0]`: does one of the words occur
at the head of `rest`, with a word boundary on each side?  `prev` is the
character immediately before `rest` (`none` at the start of the string). -/
def wordAtHead (ws : List Str) (prev : Option Char) (rest : Str) : Bool :=
  (match prev with
   | none => true
   | some p => !isWordChar p) &&
  ws.any (fun w =>
    !w.isEmpty && startsWithP w rest &&
      (match rest.drop w.length with
       | [] => true
       | c :: _ => !isWordChar c))

/-- The prefix of `s` before the first word-boundary occurrence of one of the
words `ws` (JS `s.split(/\b(w1|w2|...)\b/)[0]`, case-sensitive). -/
def takeBeforeWordsGo (ws : List Str) : Option Char → Str → Str
  | _, [] => []
  | prev, c :: t =>
    if wordAtHead ws prev (c :: t) then []
    else c :: takeBeforeWordsGo ws (some c) t

/-- JS `s.split(/\b(w1|w2|...)\b/)[0]`. -/
def takeBeforeWords (ws : List Str) (s : Str) : Str :=
  takeBeforeWordsGo ws none s

/-- JS regex test `/[a-zA-Z]{3,}/`: three consecutive ASCII letters occur. -/
def hasAlphaRun3 : Str → Bool
  | a :: b :: c :: t => (a.isAlpha && b.isAlpha && c.isAlpha) || hasAlphaRun3 (b :: c :: t)
  | _ => false

/-- JS `replace(/^(art1|art2|...)\s+/i, '')`: strip one leading article from
the given alternation (tried left to right) together with the whitespace run
following it. -/
def stripLeadingArticles (arts : List Str) (s : Str) : Str :=
  match arts.find? (fun a =>
      startsWithP (lower a) (lower s) &&
        (match s.drop a.length with
         | c :: _ => isWs c
         | [] => false)) with
  | some a => (s.drop a.length).dropWhile isWs
  | none => s

/-- `val || default` on strings (JS: the empty string is falsy). -/
def jsOrStr (v : Option Str) (d : Str) : Str :=
  match v with
  | none => d
  | some s => if s.isEmpty then d else s

/-- `isValidNumber(item.confidence) ? item.confidence : 0.5` — an absent or
non-finite confidence is modelled as `none`. -/
def jsConf (c : Option ℚ) : ℚ :=
  match c with
  | some q => q
  | none => mkRat 1 2

/-- `if (!found[key]) { found[key] = true; acc.push(x); }` — the seen-key map
plus accumulated results used by every extraction phase. -/
def pushNew {α : Type} (st : List Str × List α) (k : Str) (x : α) :
    List Str × List α :=
  if st.1.contains k then st else (k :: st.1, st.2 ++ [x])

/-- The common deduplication loop shared by all modules: walk the candidate
list, skip invalid items, keep only the first item for each key, and normalise
the kept item. -/
def dedupGo {α β : Type} (valid : α → Bool) (key : α → Str) (norm : α → β) :
    List Str → List α → List β
  | _, [] => []
  | seen, x :: xs =>
    if valid x then
      if seen.contains (key x) then dedupGo valid key norm seen xs
      else norm x :: dedupGo valid key norm (key x :: seen) xs
    else dedupGo valid key norm seen xs

/-- Deduplicate a candidate list from an empty seen-set. -/
def dedupBy {α β : Type} (valid : α → Bool) (key : α → Str) (norm : α → β)
    (l : List α) : List β :=
  dedupGo valid key norm [] l

/-! ## Events module (`src/modules/events.js`) -/

/-- `EVENT_PATTERNS`: event type, phrase patterns, keywords. -/
def EVENT_PATTERNS : List (Str × List Str × List Str) :=
  [("system".data,
    strs ["reset", "reinstall", "format", "wipe", "upgrade", "update", "install",
          "uninstall", "crash", "restart", "reboot", "shutdown", "upgrading"],
    strs ["pc", "computer", "system", "windows", "mac", "linux", "phone", "device", "laptop"]),
   ("travel".data,
    strs ["on a train", "on the train", "on a bus", "on a plane", "flying",
          "traveling", "travelling", "commuting", "driving", "riding"],
    strs ["train", "bus", "plane", "flight", "car", "uber", "taxi", "metro", "subway"]),
   ("work".data,
    strs ["meeting", "in a meeting", "on a call", "conference", "presentation", "demo", "interview"],
    strs ["meeting", "call", "conference", "presentation", "demo", "interview"]),
   ("connectivity".data,
    strs ["internet went down", "connection dropped", "wifi went down",
          "lost connection", "internet outage", "network down"],
    strs ["internet", "wifi", "connection", "network", "outage"]),
   ("hardware".data,
    strs ["laptop crashed", "computer crashed", "stopped booting",
          "hard drive failed", "disk failed", "screen broke"],
    strs ["crashed", "failed", "broke", "died", "booting"])]

def TENSE_PAST : List Str :=
  strs ["was", "were", "did", "had", "after", "yesterday", "last", "ago",
        "finished", "completed", "done", "went"]

def TENSE_PRESENT : List Str :=
  strs ["am", "is", "are", "now", "right now", "currently", "at the moment", "today"]

def TENSE_FUTURE : List Str :=
  strs ["will", "going to", "about to", "tomorrow", "later", "soon", "next"]

def DECAY_SHORT : List Str :=
  strs ["just", "now", "right now", "currently", "at the moment", "today", "this moment"]

def DECAY_MEDIUM : List Str :=
  strs ["yesterday", "recently", "the other day", "earlier"]

def DECAY_LONG : List Str :=
  strs ["last week", "last month", "ago", "before", "previously", "earlier this year"]

/-- `detectTense` — past first, then future, then present, default present. -/
def detectTense (text : Str) : Str :=
  let lowerText := lower text
  if containsAny lowerText TENSE_PAST then "past".data
  else if containsAny lowerText TENSE_FUTURE then "future".data
  else if containsAny lowerText TENSE_PRESENT then "present".data
  else "present".data

/-- `detectDecay` — long, then medium, then short, else default from tense. -/
def detectDecay (text : Str) : Str :=
  let lowerText := lower text
  if containsAny lowerText DECAY_LONG then "long".data
  else if containsAny lowerText DECAY_MEDIUM then "medium".data
  else if containsAny lowerText DECAY_SHORT then "short".data
  else if detectTense text = "past".data then "medium".data
  else "short".data

/-- `detectEventType` — a patterns pass over all types, then a keywords pass. -/
def detectEventType (text : Str) : Option Str :=
  let lowerText := lower text
  match EVENT_PATTERNS.find? (fun e => containsAny lowerText e.2.1) with
  | some e => some e.1
  | none =>
    match EVENT_PATTERNS.find? (fun e => containsAny lowerText e.2.2) with
    | some e => some e.1
    | none => none

/-- A raw event candidate as pushed by `extractEventsFromText`; `details = []`
models an absent/empty details object. -/
structure EventCand where
  name : Str
  details : List (Str × Str)
  temporal : Option (Str × Str)
  confidence : Option ℚ
  deriving DecidableEq, Repr

/-- A deduplicated event as returned by `extractEvents`. -/
structure EventItem where
  name : Str
  details : List (Str × Str)
  temporal : Str × Str
  confidence : ℚ
  deriving DecidableEq, Repr

/-- The five hardcoded checks of `extractEventsFromText`, in source order:
each entry is (guard, found-map key, pushed candidate). -/
def evChecks (text : Str) (lowerText : Str) : List (Bool × Str × EventCand) :=
  [(containsAny lowerText (strs ["internet went down", "internet outage",
      "connection dropped", "wifi went down"]),
    "internet_outage".data,
    ⟨"internet_outage".data, [],
      some (detectTense text, detectDecay text), some (mkRat 9 10)⟩),
   (containsAny lowerText (strs ["laptop crashed", "computer crashed",
      "stopped booting", "crashed and stopped"]),
    "system_failure".data,
    ⟨"system_failure".data,
      (if isSubstr "laptop".data lowerText then
        [("device".data, "laptop".data)] else []),
      some (detectTense text, detectDecay text), some (mkRat 9 10)⟩),
   (containsAny lowerText (strs ["upgrading my system", "after upgrading",
      "system upgrade", "upgraded my"]),
    "system_upgrade".data,
    ⟨"system_upgrade".data, [],
      some (detectTense text, detectDecay text), some (mkRat 17 20)⟩),
   (containsAny lowerText (strs ["resetting my pc", "after resetting",
      "reset my pc", "windows reset"]),
    "system_reset".data,
    ⟨"system_reset".data, [("scope".data, "full".data)],
      some (detectTense text, detectDecay text), some (mkRat 9 10)⟩),
   (containsAny lowerText (strs ["on a train", "on the train", "on a bus",
      "on a plane", "traveling", "commuting"]),
    "travel".data,
    ⟨"travel".data,
      [("mode".data,
        (if isSubstr "train".data lowerText then "train".data
         else if isSubstr "bus".data lowerText then "bus".data
         else if isSubstr "plane".data lowerText then "plane".data
         else if isSubstr "car".data lowerText then "car".data
         else "unknown".data))],
      some (detectTense text, detectDecay text), some (mkRat 9 10)⟩)]

/-- `extractEventsFromText` — the five hardcoded checks followed by the
general fallback detection when no check fired. -/
def extractEventsFromText (text : Str) : List EventCand :=
  let lowerText := lower text
  let st := (evChecks text lowerText).foldl
    (fun st c => if c.1 then pushNew st c.2.1 c.2.2 else st) ([], [])
  if st.2.isEmpty then
    match detectEventType text with
    | some ty =>
      [⟨ty ++ "_event".data, [],
        some (detectTense text, detectDecay text), some (mkRat 3 4)⟩]
    | none => []
  else st.2

def evValid (e : EventCand) : Bool := !e.name.isEmpty

def evKey (e : EventCand) : Str := e.name

def evNorm (e : EventCand) : EventItem :=
  ⟨e.name, e.details, e.temporal.getD ("present".data, "short".data), jsConf e.confidence⟩

/-- `deduplicateEvents`. -/
def deduplicateEvents (events : List EventCand) : List EventItem :=
  dedupBy evValid evKey evNorm events

/-- Truncation applied by every entry point before processing. -/
def jsTruncate (s : Str) : Str :=
  if s.length > 50000 then s.take 50000 else s

/-- `extractEvents` — the module entry point; `none` models a non-string
argument. -/
def extractEvents (text : Option Str) : List EventItem :=
  match text with
  | none => []
  | some s =>
    if s.isEmpty then []
    else deduplicateEvents (extractEventsFromText (jsTruncate s))

/-! ## Tools module (`src/modules/tools.js`, v2.0 before the related docs) -/

def HARDWARE_PATTERNS : List Str :=
  strs ["esp32", "esp8266", "arduino", "raspberry pi", "rpi", "stm32",
        "laptop", "desktop", "computer", "pc", "mac", "macbook", "imac",
        "iphone", "ipad", "android phone", "smartphone", "tablet", "phone",
        "sensor", "lcd", "oled", "display", "screen", "monitor",
        "camera", "webcam", "microphone", "speaker", "headphones",
        "keyboard", "mouse", "printer", "scanner", "router",
        "gpu", "cpu", "ram", "ssd", "hard drive", "nvme"]

def SOFTWARE_PATTERNS : List Str :=
  strs ["windows", "linux", "macos", "ubuntu", "debian", "fedora", "arch",
        "chrome", "google chrome", "firefox", "safari", "edge", "brave", "opera",
        "vscode", "visual studio", "vim", "emacs", "sublime", "atom",
        "photoshop", "illustrator", "figma", "sketch", "xd",
        "excel", "word", "powerpoint", "outlook", "teams", "slack",
        "zoom", "discord", "telegram", "whatsapp", "signal",
        "expo go", "expo"]

def SERVICE_PATTERNS : List Str :=
  strs ["github", "gitlab", "bitbucket", "aws", "azure", "gcp",
        "firebase", "supabase", "vercel", "netlify", "heroku",
        "docker", "kubernetes", "openai", "anthropic", "stripe",
        "cloudflare", "mongodb", "postgresql", "mysql", "redis",
        "npm", "yarn", "pip", "conda", "homebrew",
        "cloud storage", "cloud backup", "icloud", "google drive", "dropbox", "onedrive",
        "cloud", "cloud backed", "cloud-backed"]

def PLATFORM_PATTERNS : List Str :=
  strs ["android", "ios", "web", "mobile", "desktop",
        "react native", "flutter", "expo", "cordova",
        "electron", "tauri", "pwa"]

def SECURITY_PATTERNS : List Str :=
  strs ["passkey", "passkeys", "password manager", "1password", "lastpass",
        "bitwarden", "keepass", "authy", "google authenticator",
        "2fa", "mfa", "yubikey", "vpn", "firewall"]

def DEPRECATED_INDICATORS : List Str :=
  strs ["stopped using", "no longer use", "don\'t use anymore", "quit using",
        "switched away from", "moved away from", "deprecated", "abandoned"]

/-- `determineContext` from tools v2.0. -/
def determineContext (text : Str) (toolName : Str) : Str :=
  if containsAny (lower text) DEPRECATED_INDICATORS then "deprecated".data
  else "in_use".data

/-- `normalizeToolName`. -/
def normalizeToolName (rawName : Str) : Option Str :=
  if rawName.isEmpty then none
  else
    let c1 := lower (jsTrim rawName)
    let c2 := stripLeadingArticles (strs ["a", "an", "the", "my", "our"]) c1
    let c3 := collapseWs '_' c2
    let c4 := c3.filter (fun c =>
      ('a' ≤ c && c ≤ 'z') || c.isDigit || c == '_' || c == '-')
    if c4.length < 2 || c4.length > 50 then none else some c4

structure ToolCand where
  type : Str
  name : Str
  context : Str
  confidence : Option ℚ
  deriving DecidableEq, Repr

structure ToolItem where
  type : Str
  name : Str
  context : Str
  confidence : ℚ
  deriving DecidableEq, Repr

/-- The hardcoded tool checks at the top of `extractToolsFromText`, in source
order: each entry is (guard, key, pushed candidate). -/
def toolChecks (text : Str) (lowerText : Str) : List (Bool × Str × ToolCand) :=
  [(containsPhrase lowerText "expo go".data,
    "expo_go".data,
    ⟨"software".data, "expo_go".data, determineContext text "expo_go".data, some (mkRat 19 20)⟩),
   (containsPhrase lowerText "windows".data,
    "windows".data,
    ⟨"software".data, "windows".data, determineContext text "windows".data, some (mkRat 19 20)⟩),
   (containsPhrase lowerText "chrome".data,
    "google_chrome".data,
    ⟨"software".data, "google_chrome".data, "in_use".data, some (mkRat 9 10)⟩),
   (containsPhrase lowerText "cloud backed".data ||
      containsPhrase lowerText "cloud-backed".data ||
      containsPhrase lowerText "cloud storage".data ||
      containsPhrase lowerText "cloud backup".data,
    "cloud_storage".data,
    ⟨"service".data, "cloud_storage".data, "in_use".data, some (mkRat 17 20)⟩),
   (containsPhrase lowerText "postgresql".data || containsPhrase lowerText "postgres".data,
    "postgresql".data,
    ⟨"software".data, "postgresql".data, "in_use".data, some (mkRat 9 10)⟩),
   (containsPhrase lowerText "android".data,
    "android".data,
    ⟨"platform".data, "android".data, "in_use".data, some (mkRat 9 10)⟩),
   ((containsPhrase lowerText "my phone".data ||
       containsPhrase lowerText "phone".data ||
       containsPhrase lowerText "smartphone".data) &&
      !containsPhrase lowerText "android phone".data,
    "phone".data,
    ⟨"hardware".data, "phone".data, "in_use".data, some (mkRat 9 10)⟩),
   (containsPhrase lowerText "pc".data ||
      containsPhrase lowerText "my pc".data ||
      containsPhrase lowerText "windows pc".data,
    "pc".data,
    ⟨"hardware".data, "pc".data, "in_use".data, some (mkRat 9 10)⟩),
   (containsPhrase lowerText "laptop".data || containsPhrase lowerText "my laptop".data,
    "laptop".data,
    ⟨"hardware".data, "laptop".data, "in_use".data, some (mkRat 9 10)⟩)]

/-- The pattern-table scan of `extractToolsFromText`, flattened to
(pattern, type) pairs in source order. -/
def toolScanPatterns : List (Str × Str) :=
  HARDWARE_PATTERNS.map (fun p => (p, "hardware".data)) ++
  SOFTWARE_PATTERNS.map (fun p => (p, "software".data)) ++
  SERVICE_PATTERNS.map (fun p => (p, "service".data)) ++
  PLATFORM_PATTERNS.map (fun p => (p, "platform".data)) ++
  SECURITY_PATTERNS.map (fun p => (p, "security".data))

/-- `extractToolsFromText`. -/
def extractToolsFromText (text : Str) : List ToolCand :=
  let lowerText := lower text
  let st1 := (toolChecks text lowerText).foldl
    (fun st c => if c.1 then pushNew st c.2.1 c.2.2 else st) ([], [])
  let st2 := toolScanPatterns.foldl
    (fun st pt =>
      if containsPhrase lowerText pt.1 then
        match normalizeToolName pt.1 with
        | some nm => pushNew st nm ⟨pt.2, nm, determineContext text nm, some (mkRat 17 20)⟩
        | none => st
      else st) st1
  st2.2

def toolValid (t : ToolCand) : Bool :=
  !t.type.isEmpty && !t.name.isEmpty && !t.context.isEmpty

def toolKey (t : ToolCand) : Str := t.type ++ ':' :: t.name

def toolNorm (t : ToolCand) : ToolItem :=
  ⟨t.type, t.name, t.context, jsConf t.confidence⟩

/-- `deduplicateTools` — dedup key `type:name`. -/
def deduplicateTools (tools : List ToolCand) : List ToolItem :=
  dedupBy toolValid toolKey toolNorm tools

/-- `extractTools` — the module entry point (no NLP involved in v2.0). -/
def extractTools (text : Option Str) : List ToolItem :=
  match text with
  | none => []
  | some s =>
    if s.isEmpty then []
    else deduplicateTools (extractToolsFromText (jsTruncate s))

/-! ## Warnings module (`src/unnamed/part_002`, v1.0 before the related docs) -/

/-- `WARNING_TYPES` in insertion order: type, patterns, keywords. -/
def WARNING_TYPES : List (Str × List Str × List Str) :=
  [("data_loss".data,
    strs ["lose data", "losing data", "data loss", "wipe data", "delete data",
          "erase data", "lose files", "losing files", "lost data", "lost files",
          "don\'t want to lose"],
    strs ["data", "files", "documents", "backup", "wipe", "delete", "erase", "lost"]),
   ("security".data,
    strs ["is it safe", "is this safe", "is it secure", "security risk",
          "security concern", "privacy concern", "worried about security",
          "data breach", "hack", "hacked", "malware", "virus"],
    strs ["security", "secure", "safe", "privacy", "breach", "hack", "malware",
          "virus", "password"]),
   ("irreversible".data,
    strs ["can\'t undo", "cannot undo", "no undo", "irreversible", "permanent",
          "can\'t go back", "cannot go back", "point of no return", "no way back"],
    strs ["undo", "irreversible", "permanent", "forever", "revert"]),
   ("breaking".data,
    strs ["might break", "could break", "will break", "break things",
          "breaking change", "breaking something", "cause issues", "cause problems"],
    strs ["break", "breaking", "broken", "crash", "fail"]),
   ("general".data,
    strs ["worried about", "concerned about", "afraid of", "fear of", "scared of",
          "nervous about", "risky", "dangerous", "be careful"],
    strs ["worried", "concerned", "afraid", "fear", "scared", "nervous", "risky",
          "dangerous", "careful", "warning"])]

def WARNING_BLOCKLIST : List Str :=
  strs ["it", "that", "this", "something", "anything", "nothing"]

/-- `validateRelatedTo` — the argument may be `null` (the parse result). -/
def validateRelatedTo (rawText : Option Str) : Option Str :=
  match rawText with
  | none => none
  | some raw =>
    if raw.isEmpty then none
    else
      let c1 := jsTrim raw
      let c2 := stripQuotesOnce c1
      let c3 := stripTrailingRun ['.', ',', '!', '?', ';', ':'] c2
      let c := jsTrim c3
      if c.length < 2 || c.length > 100 then none
      else if arrayContains WARNING_BLOCKLIST c then none
      else some c

/-- `detectWarningType` — patterns pass (confidence 0.90) then keywords pass
(confidence 0.70). -/
def detectWarningType (text : Str) : Option (Str × ℚ) :=
  let lowerText := lower text
  match WARNING_TYPES.find? (fun w => containsAny lowerText w.2.1) with
  | some w => some (w.1, mkRat 9 10)
  | none =>
    match WARNING_TYPES.find? (fun w => containsAny lowerText w.2.2) with
    | some w => some (w.1, mkRat 7 10)
    | none => none

structure WCand where
  type : Str
  related_to : Option Str
  raw : Str
  confidence : Option ℚ
  deriving DecidableEq, Repr

structure WarnItem where
  type : Str
  related_to : Option Str
  confidence : ℚ
  deriving DecidableEq, Repr

/-- The analyzer-dependent data consumed by the warnings strategy table: for
each of the eight `doc.match` strategies, the list of matches; a match carries
the strategy's parse result (for the strategies whose parse reads the match)
and the match's rendered text `safeGetText(m)`.  Strategies 3 and 8 always
parse to `null`, 4 and 5 to `'action'`, 7 to `'data'`, so for those only raw
texts are supplied. -/
structure WMatchData where
  worried : List (Option Str × Str)
  dontLose : List (Option Str × Str)
  isSafe : List Str
  irrevPerm : List Str
  cantUndo : List Str
  mightBreak : List (Option Str × Str)
  dataLoss : List Str
  careful : List Str
  deriving DecidableEq, Repr

/-- Processing of one strategy's match list: validate the parse result, detect
a type override from the match text, and push with the strategy's constant
confidence under the shared `foundTypes` map. -/
def procWMatches (conf : ℚ) (defType : Str)
    (ms : List (Option Str × Str)) (st : List Str × List WCand) :
    List Str × List WCand :=
  ms.foldl (fun st m =>
    let validRel := validateRelatedTo m.1
    let raw := m.2
    let finalType := match detectWarningType raw with
      | some d => d.1
      | none => defType
    pushNew st finalType ⟨finalType, validRel, raw, some conf⟩) st

/-- The (type, base confidence) rows of the warnings strategy table, in source
order. -/
def warningsStrategyTable : List (Str × ℚ) :=
  [("general".data, mkRat 9 10), ("data_loss".data, mkRat 19 20), ("security".data, mkRat 17 20),
   ("irreversible".data, mkRat 9 10), ("irreversible".data, mkRat 9 10), ("breaking".data, mkRat 17 20),
   ("data_loss".data, mkRat 17 20), ("general".data, mkRat 3 4)]

/-- The strategy phase of `extractWarningSignals`: all eight strategies run in
order against the shared `foundTypes` map. -/
def warningsStrategyPhase (md : WMatchData) : List WCand :=
  let st0 : List Str × List WCand := ([], [])
  let st1 := procWMatches (mkRat 9 10) "general".data md.worried st0
  let st2 := procWMatches (mkRat 19 20) "data_loss".data md.dontLose st1
  let st3 := procWMatches (mkRat 17 20) "security".data (md.isSafe.map (fun r => (none, r))) st2
  let st4 := procWMatches (mkRat 9 10) "irreversible".data
    (md.irrevPerm.map (fun r => (some "action".data, r))) st3
  let st5 := procWMatches (mkRat 9 10) "irreversible".data
    (md.cantUndo.map (fun r => (some "action".data, r))) st4
  let st6 := procWMatches (mkRat 17 20) "breaking".data md.mightBreak st5
  let st7 := procWMatches (mkRat 17 20) "data_loss".data
    (md.dataLoss.map (fun r => (some "data".data, r))) st6
  let st8 := procWMatches (mkRat 3 4) "general".data
    (md.careful.map (fun r => (none, r))) st7
  st8.2

/-- The general keyword scan that runs only when no strategy produced a
result (`if (results.length === 0) ...`). -/
def warningsFallback (text : Str) : List WCand :=
  match detectWarningType text with
  | some d => [⟨d.1, none, text.take 100, some d.2⟩]
  | none => []

/-- `extractWarningSignals`. -/
def extractWarningSignals (md : WMatchData) (text : Str) : List WCand :=
  let results := warningsStrategyPhase md
  if results.isEmpty then warningsFallback text else results

def wValid (w : WCand) : Bool := !w.type.isEmpty

def wKey (w : WCand) : Str := w.type

/-- `related_to: item.related_to || null` — the empty string is falsy. -/
def wNorm (w : WCand) : WarnItem :=
  ⟨w.type,
   (match w.related_to with
    | some r => if r.isEmpty then none else some r
    | none => none),
   jsConf w.confidence⟩

/-- `deduplicateWarnings` — dedup key is the warning type. -/
def deduplicateWarnings (warnings : List WCand) : List WarnItem :=
  dedupBy wValid wKey wNorm warnings

/-- `extractWarnings` — the module entry point; the analyzer is modelled as a
function from the (truncated) text to the strategy match data. -/
def extractWarnings (analyzer : Str → WMatchData) (text : Option Str) :
    List WarnItem :=
  match text with
  | none => []
  | some s =>
    if s.isEmpty then []
    else
      let s' := jsTruncate s
      deduplicateWarnings (extractWarningSignals (analyzer s') s')

/-! ## Goals module (`src/modules/goals.js`, v2.0 before the related docs) -/

def GOAL_BLOCKLIST : List Str :=
  strs ["nothing", "nowhere", "something", "everything", "anything", "somewhere",
        "it", "that", "this", "there", "here", "now", "then", "what", "why",
        "bed", "sleep", "bathroom", "home", "back", "away", "out", "in"]

def VAGUE_GOALS : List Str :=
  strs ["better", "more", "less", "good", "great", "best", "fine", "okay",
        "happy", "sad", "rich", "successful", "famous", "things", "stuff"]

def HORIZON_SHORT : List Str :=
  strs ["today", "tonight", "tomorrow", "this week", "next week", "soon",
        "by tomorrow", "right now", "now", "asap", "immediately", "reset"]

def HORIZON_MEDIUM : List Str :=
  strs ["this month", "next month", "this quarter", "by summer", "by spring",
        "by fall", "by winter", "in a few weeks", "in a month", "migrate",
        "learn", "properly"]

def HORIZON_LONG : List Str :=
  strs ["this year", "next year", "in 5 years", "in 10 years", "someday",
        "eventually", "one day", "future", "long term", "in the future",
        "focus on", "focus fully"]

/-- `determineHorizon` — short first, then long, then medium, default short;
only the first argument is inspected. -/
def determineHorizon (text : Str) : Str :=
  let goalText := lower text
  if containsAny goalText HORIZON_SHORT then "short".data
  else if containsAny goalText HORIZON_LONG then "long".data
  else if containsAny goalText HORIZON_MEDIUM then "medium".data
  else "short".data

/-- `validateGoal`. -/
def validateGoal (rawText : Option Str) : Option Str :=
  match rawText with
  | none => none
  | some raw =>
    if raw.isEmpty then none
    else
      let c1 := jsTrim raw
      let c2 := stripQuotesOnce c1
      let c3 := stripTrailingRun ['.', ',', '!', '?', ';', ':'] c2
      let c := jsTrim c3
      if c.length < 5 || c.length > 200 then none
      else if arrayContains GOAL_BLOCKLIST c then none
      else if arrayContains VAGUE_GOALS c then none
      else if !hasAlphaRun3 c then none
      else if c.contains '?' then none
      else some c

structure GoalCand where
  description : Str
  horizon : Str
  status : Str
  confidence : Option ℚ
  deriving DecidableEq, Repr

structure GoalItem where
  description : Str
  horizon : Str
  status : Str
  confidence : ℚ
  deriving DecidableEq, Repr

/-- The regex and analyzer results consumed by `extractGoalDescriptions`:
the capture groups of the five `text.match(...)` regexes (absent when the
regex did not match) and, for each `doc.match('(my|our) goal is to .+')`
match, the strategy's parse result together with the match's rendered text. -/
structure GoalMatchData where
  multi : Option (Str × Str)
  migrate : Option Str
  learn : Option Str
  focus : Option Str
  general : Option Str
  nlpMatches : List (Option Str × Str)
  deriving DecidableEq, Repr

/-- The `want to ... and ...` block (both capture groups must be truthy). -/
def goalsPhaseMulti (rd : GoalMatchData) (text : Str)
    (st : List Str × List GoalCand) : List Str × List GoalCand :=
  match rd.multi with
  | some (g1raw, g2raw) =>
    if g1raw.isEmpty || g2raw.isEmpty then st
    else
      let g1 := jsTrim g1raw
      let stA :=
        if 3 < g1.length && g1.length < 100 then
          pushNew st ((lower g1).take 40)
            ⟨lower g1, determineHorizon g1, "active".data, some (mkRat 9 10)⟩
        else st
      let g2 := jsTrim g2raw
      if 3 < g2.length && g2.length < 100 then
        pushNew stA ((lower g2).take 40)
          ⟨lower g2, determineHorizon g2, "active".data, some (mkRat 9 10)⟩
      else stA
  | none => st

/-- The `want to migrate ...` block. -/
def goalsPhaseMigrate (rd : GoalMatchData) (st : List Str × List GoalCand) :
    List Str × List GoalCand :=
  match rd.migrate with
  | some m =>
    if m.isEmpty then st
    else
      let d0 := lower (jsTrim m)
      let d := jsTrim (takeBeforeWords (strs ["but", "however"]) d0)
      if d.length > 5 then
        pushNew st (d.take 40) ⟨d, "medium".data, "active".data, some (mkRat 9 10)⟩
      else st
  | none => st

/-- The `want to learn ...` block. -/
def goalsPhaseLearn (rd : GoalMatchData) (st : List Str × List GoalCand) :
    List Str × List GoalCand :=
  match rd.learn with
  | some m =>
    if m.isEmpty then st
    else
      let d0 := lower (jsTrim m)
      let d := jsTrim (takeBeforeWords (strs ["because", "since", "but"]) d0)
      if d.length > 5 then
        pushNew st (d.take 40) ⟨d, "medium".data, "active".data, some (mkRat 19 20)⟩
      else st
  | none => st

/-- The `want to focus ...` block. -/
def goalsPhaseFocus (rd : GoalMatchData) (st : List Str × List GoalCand) :
    List Str × List GoalCand :=
  match rd.focus with
  | some m =>
    if m.isEmpty then st
    else
      let d0 := lower (jsTrim m)
      let d := jsTrim (takeBeforeWords (strs ["but", "however"]) d0)
      if d.length > 5 then
        pushNew st (d.take 40) ⟨d, "long".data, "active".data, some (mkRat 17 20)⟩
      else st
  | none => st

/-- The general `want to X` fallback — only consulted when nothing was
produced so far. -/
def goalsPhaseGeneral (rd : GoalMatchData) (st : List Str × List GoalCand) :
    List Str × List GoalCand :=
  match rd.general with
  | some m =>
    if m.isEmpty then st
    else
      let g0 := jsTrim m
      let g1 := takeBeforeWords (strs ["but", "however", "because"]) g0
      let gd := lower (jsTrim g1)
      if gd.length > 5 && gd.length < 100 then
        pushNew st (gd.take 40)
          ⟨gd, determineHorizon gd, "active".data, some (mkRat 9 10)⟩
      else st
  | none => st

/-- The NLP strategy `(my|our) goal is to .+` (confidence 0.95): parse, then
`validateGoal`, then push under the shared found map. -/
def goalsPhaseNlp (rd : GoalMatchData) (st : List Str × List GoalCand) :
    List Str × List GoalCand :=
  rd.nlpMatches.foldl (fun st m =>
    match validateGoal m.1 with
    | some vg =>
      let description := lower vg
      pushNew st (description.take 40)
        ⟨description, determineHorizon vg, "active".data, some (mkRat 19 20)⟩
    | none => st) st

/-- `extractGoalDescriptions`. -/
def extractGoalDescriptions (rd : GoalMatchData) (text : Str) : List GoalCand :=
  let st0 : List Str × List GoalCand := ([], [])
  let st1 := goalsPhaseMulti rd text st0
  let st2 := goalsPhaseMigrate rd st1
  let st3 := goalsPhaseLearn rd st2
  let st4 := goalsPhaseFocus rd st3
  let st5 := if st4.2.isEmpty then goalsPhaseGeneral rd st4 else st4
  (goalsPhaseNlp rd st5).2

def gValid (g : GoalCand) : Bool := !g.description.isEmpty

def gKey (g : GoalCand) : Str := (collapseWs ' ' (lower g.description)).take 50

def gNorm (g : GoalCand) : GoalItem :=
  ⟨g.description, jsOrStr (some g.horizon) "short".data,
   jsOrStr (some g.status) "active".data, jsConf g.confidence⟩

/-- `deduplicateGoals`. -/
def deduplicateGoals (goals : List GoalCand) : List GoalItem :=
  dedupBy gValid gKey gNorm goals

/-- `extractGoals` — the module entry point. -/
def extractGoals (analyzer : Str → GoalMatchData) (text : Option Str) :
    List GoalItem :=
  match text with
  | none => []
  | some s =>
    if s.isEmpty then []
    else
      let s' := jsTruncate s
      deduplicateGoals (extractGoalDescriptions (analyzer s') s')

/-! ## Jobs module (`src/unnamed/part_003`, v2.0 before the related docs) -/

def JOB_TRIGGER_GROUPS : List (List Str) :=
  [strs ["working on", "building", "developing", "creating", "making",
         "implementing", "designing", "architecting"],
   strs ["studying", "studying for", "researching", "exploring", "investigating",
         "analyzing", "preparing for", "writing"],
   strs ["maintaining", "managing", "supporting", "running", "operating", "handling"]]

def GOAL_INDICATORS : List Str :=
  strs ["want to", "planning to", "will", "going to", "hoping to", "would like to",
        "aim to", "intend to", "plan to", "wish to", "need to", "should", "might"]

def COMPLETED_INDICATORS : List Str :=
  strs ["built", "created", "made", "finished", "completed", "shipped", "deployed",
        "released", "launched", "did", "was working on", "used to work on", "previously"]

def PAUSED_INDICATORS : List Str :=
  strs ["paused", "stopped", "put on hold", "on hold", "suspended", "postponed",
        "taking a break from", "break from"]

def VAGUE_TITLES : List Str :=
  strs ["stuff", "things", "something", "anything", "everything", "nothing",
        "it", "this", "that", "what"]

/-- `normalizeJobTitle`. -/
def normalizeJobTitle (rawTitle : Str) : Option Str :=
  if rawTitle.isEmpty then none
  else
    let c1 := jsTrim rawTitle
    let c2 := stripLeadingArticles
      (strs ["a", "an", "the", "my", "our", "your", "his", "her", "their", "some"]) c1
    let c3 := stripTrailingRun ['.', ',', '!', '?', ';', ':'] c2
    let c4 := collapseWs ' ' c3
    let c := jsTrim c4
    if c.length < 3 || c.length > 200 then none
    else if arrayContains VAGUE_TITLES c then none
    else if !c.isEmpty && c.all (fun ch =>
        ch.isDigit || isWs ch || ['-', '_', '.', ',', ';', ':', '!', '?'].contains ch) then none
    else some (lower c)

/-- `determineStatus`. -/
def determineStatus (text : Str) : Str :=
  let lowerText := lower text
  if containsAny lowerText PAUSED_INDICATORS then "paused".data
  else if containsAny lowerText COMPLETED_INDICATORS then "completed".data
  else "active".data

/-- `isValidJob`. -/
def isValidJob (raw : Str) : Bool :=
  if raw.isEmpty then false
  else
    let lowerRaw := lower raw
    if containsAny lowerRaw PAUSED_INDICATORS then true
    else if containsAny lowerRaw GOAL_INDICATORS then false
    else if containsAny lowerRaw COMPLETED_INDICATORS then false
    else
      let hasTrigger := JOB_TRIGGER_GROUPS.any (fun g => containsAny lowerRaw g)
      if !hasTrigger && !containsAny lowerRaw PAUSED_INDICATORS then false
      else true

structure JobCand where
  title : Str
  status : Str
  confidence : Option ℚ
  deriving DecidableEq, Repr

structure JobItem where
  title : Str
  status : Str
  confidence : ℚ
  deriving DecidableEq, Repr

/-- The regex and analyzer results consumed by `extractJobsFromText`: the
first capture group of each of the four `text.match(...)` regexes, and the
parse result plus rendered text of each match of the NLP strategy. -/
structure JobMatchData where
  paused : Option Str
  currently : Option Str
  building : Option Str
  workingOn : Option Str
  nlpMatches : List (Option Str × Str)
  deriving DecidableEq, Repr

/-- The `paused my X` regex block (capture group must be truthy). -/
def jobsPhasePaused (rd : JobMatchData) (st : List Str × List JobCand) :
    List Str × List JobCand :=
  match rd.paused with
  | some m =>
    if m.isEmpty then st
    else
      match normalizeJobTitle (takeBeforeWords (strs ["after", "because", "when"]) m) with
      | some title => pushNew st title ⟨title, "paused".data, some (mkRat 9 10)⟩
      | none => st
  | none => st

/-- The `currently working on X` regex block. -/
def jobsPhaseCurrently (rd : JobMatchData) (st : List Str × List JobCand) :
    List Str × List JobCand :=
  match rd.currently with
  | some m =>
    if m.isEmpty then st
    else
      match normalizeJobTitle (takeBeforeWords (strs ["and", "but"]) m) with
      | some title => pushNew st title ⟨title, "active".data, some (mkRat 19 20)⟩
      | none => st
  | none => st

/-- The `i'm building X` regex block. -/
def jobsPhaseBuilding (rd : JobMatchData) (st : List Str × List JobCand) :
    List Str × List JobCand :=
  match rd.building with
  | some m =>
    if m.isEmpty then st
    else
      match normalizeJobTitle m with
      | some title => pushNew st title ⟨title, "active".data, some (mkRat 19 20)⟩
      | none => st
  | none => st

/-- The `working on X` regex block, gated by `isValidJob(text)` or the word
`currently`. -/
def jobsPhaseWorkingOn (rd : JobMatchData) (text : Str) (lowerText : Str)
    (st : List Str × List JobCand) : List Str × List JobCand :=
  match rd.workingOn with
  | some m =>
    if m.isEmpty then st
    else
      match normalizeJobTitle (takeBeforeWords (strs ["and", "but"]) m) with
      | some title =>
        if isValidJob text || containsAny lowerText (strs ["currently"]) then
          pushNew st title ⟨title, determineStatus text, some (mkRat 19 20)⟩
        else st
      | none => st
  | none => st

/-- The NLP strategy of the jobs module (confidence 0.95). -/
def jobsPhaseNlp (rd : JobMatchData) (st : List Str × List JobCand) :
    List Str × List JobCand :=
  rd.nlpMatches.foldl (fun st m =>
    if !isValidJob m.2 then st
    else
      match m.1 with
      | some rawTitle =>
        (match normalizeJobTitle rawTitle with
         | some nt => pushNew st nt ⟨nt, determineStatus m.2, some (mkRat 19 20)⟩
         | none => st)
      | none => st) st

/-- `extractJobsFromText`. -/
def extractJobsFromText (rd : JobMatchData) (text : Str) : List JobCand :=
  let lowerText := lower text
  let st1 := jobsPhasePaused rd ([], [])
  let st2 := jobsPhaseCurrently rd st1
  let st3 := jobsPhaseBuilding rd st2
  let st4 := jobsPhaseWorkingOn rd text lowerText st3
  (jobsPhaseNlp rd st4).2

def jValid (j : JobCand) : Bool := !j.title.isEmpty && !j.status.isEmpty

def jKey (j : JobCand) : Str := (lower j.title).take 50

def jNorm (j : JobCand) : JobItem := ⟨j.title, j.status, jsConf j.confidence⟩

/-- `deduplicateJobs`. -/
def deduplicateJobs (jobs : List JobCand) : List JobItem :=
  dedupBy jValid jKey jNorm jobs

/-- `extractJobs` — the module entry point. -/
def extractJobs (analyzer : Str → JobMatchData) (text : Option Str) :
    List JobItem :=
  match text with
  | none => []
  | some s =>
    if s.isEmpty then []
    else
      let s' := jsTruncate s
      deduplicateJobs (extractJobsFromText (analyzer s') s')

/-! ## Aggregator (`src/index.js`) -/

/-- Items of the categories whose modules are not embedded here are modelled
as generic records. -/
abbrev MiscItem := List (Str × Str)

/-- The twelve module functions `require`d and called by `src/index.js`
(there is no events slot: the aggregator never calls the events module).
Each call sits inside the aggregator's single `try`, so a call is allowed to
throw, modelled by `Except Unit`. -/
structure Extractors where
  identity : Str → Except Unit (List MiscItem)
  goals : Str → Except Unit (List GoalItem)
  tools : Str → Except Unit (List ToolItem)
  skills : Str → Except Unit (List MiscItem)
  jobs : Str → Except Unit (List JobItem)
  preferences : Str → Except Unit (List MiscItem)
  experiences : Str → Except Unit (List MiscItem)
  facts : Str → Except Unit (List MiscItem)
  results : Str → Except Unit (List MiscItem)
  intents : Str → Except Unit (List MiscItem)
  constraints : Str → Except Unit (List MiscItem)
  warnings : Str → Except Unit (List WarnItem)

structure Meta where
  source : Str
  parser_version : Str
  timestamp : Str
  deriving DecidableEq, Repr

/-- `generateMeta(source)` — the call time is passed explicitly. -/
def generateMeta (source : Option Str) (t : Str) : Meta :=
  ⟨jsOrStr source "text".data, "0.1.0".data, t⟩

/-- The full fixed-key response: thirteen category arrays plus `meta`. -/
structure ContextResponse where
  identity : List MiscItem
  goals : List GoalItem
  events : List EventItem
  tools : List ToolItem
  skills : List MiscItem
  jobs : List JobItem
  preferences : List MiscItem
  experiences : List MiscItem
  facts : List MiscItem
  results : List MiscItem
  intents : List MiscItem
  constraints : List MiscItem
  warnings : List WarnItem
  meta : Meta

/-- The all-empty skeleton returned for invalid input and on catastrophic
failure. -/
def emptyResponse (source : Option Str) (t : Str) : ContextResponse :=
  ⟨[], [], [], [], [], [], [], [], [], [], [], [], [], generateMeta source t⟩

/-- The category arrays produced by the twelve extractor calls. -/
structure Cats where
  identity : List MiscItem
  goals : List GoalItem
  tools : List ToolItem
  skills : List MiscItem
  jobs : List JobItem
  preferences : List MiscItem
  experiences : List MiscItem
  facts : List MiscItem
  results : List MiscItem
  intents : List MiscItem
  constraints : List MiscItem
  warnings : List WarnItem

/-- The twelve extractor calls of `extractContext`, in source order, inside
the aggregator's single `try`. -/
def runAll (E : Extractors) (s : Str) : Except Unit Cats := do
  let extractedIdentity ← E.identity s
  let extractedGoals ← E.goals s
  let extractedTools ← E.tools s
  let extractedSkills ← E.skills s
  let extractedJobs ← E.jobs s
  let extractedPreferences ← E.preferences s
  let extractedExperiences ← E.experiences s
  let extractedFacts ← E.facts s
  let extractedResults ← E.results s
  let extractedIntents ← E.intents s
  let extractedConstraints ← E.constraints s
  let extractedWarnings ← E.warnings s
  pure ⟨extractedIdentity, extractedGoals, extractedTools, extractedSkills,
    extractedJobs, extractedPreferences, extractedExperiences, extractedFacts,
    extractedResults, extractedIntents, extractedConstraints, extractedWarnings⟩

/-- `extractContext(text, options)` — `none` input models any non-string
value; `src` is `options.source`; `t` is the call time read by
`generateMeta`.  The `events` key is hardcoded to `[]` ("Events module not
yet implemented"); a failure anywhere inside the `try` yields the empty
skeleton. -/
def extractContext (E : Extractors) (text : Option Str) (src : Option Str)
    (t : Str) : ContextResponse :=
  match text with
  | none => emptyResponse src t
  | some s =>
    if s.isEmpty then emptyResponse src t
    else
      match runAll E (jsTruncate s) with
      | .ok c =>
        ⟨c.identity, c.goals, [], c.tools, c.skills, c.jobs, c.preferences,
          c.experiences, c.facts, c.results, c.intents, c.constraints,
          c.warnings, generateMeta src t⟩
      | .error _ => emptyResponse src t

/-- Replace only `meta.timestamp` of a response. -/
def withTimestamp (r : ContextResponse) (t : Str) : ContextResponse :=
  { r with meta := { r.meta with timestamp := t } }

/-- An extractor record whose entries all succeed with empty output; concrete
instantiations override individual slots. -/
def stubExtractors : Extractors :=
  ⟨fun _ => .ok [], fun _ => .ok [], fun _ => .ok [], fun _ => .ok [],
   fun _ => .ok [], fun _ => .ok [], fun _ => .ok [], fun _ => .ok [],
   fun _ => .ok [], fun _ => .ok [], fun _ => .ok [], fun _ => .ok []⟩

/-- The stub record with the real (embedded) tools module plugged in. -/
def toolsExtractors : Extractors :=
  { stubExtractors with tools := fun s => .ok (extractTools (some s)) }

/-- `toolsExtractors` with the goals extractor replaced by a function that
throws. -/
def throwingGoalsExtractors : Extractors :=
  { toolsExtractors with goals := fun _ => .error () }

/-! ## Spec-modelled deduplicator (for the refinement comparison of C4) -/

/-- Merge policy taken from the spec's words: on a key collision the kept
item's confidence is replaced only when the colliding item's is strictly
higher, and an absent optional field (`related_to`) is filled from the
discarded item. -/
def specMergeWarn (old new : WarnItem) : WarnItem :=
  ⟨old.type,
   (match old.related_to with
    | some r => some r
    | none => new.related_to),
   if old.confidence < new.confidence then new.confidence else old.confidence⟩

/-- Insert an item into an accumulator in first-seen key order, merging on a
key collision per the spec's words. -/
def specInsertWarn : List WarnItem → WarnItem → List WarnItem
  | [], y => [y]
  | z :: zs, y =>
    if z.type = y.type then specMergeWarn z y :: zs
    else z :: specInsertWarn zs y

/-- The warnings deduplicator as the spec describes it (first-seen order,
confidence replaced only if strictly higher, absent optional fields filled
from the discarded item), for comparison with `deduplicateWarnings`. -/
def specDedupWarnings (warnings : List WCand) : List WarnItem :=
  warnings.foldl (fun acc x =>
    if wValid x then specInsertWarn acc (wNorm x) else acc) []

/-- The dedup key of a goal item in the final output. -/
def goalOutKey (g : GoalItem) : Str := (collapseWs ' ' (lower g.description)).take 50

/-- The dedup key of a tool item in the final output: `type:name`. -/
def toolOutKey (t : ToolItem) : Str := t.type ++ ':' :: t.name

/-- The dedup key of a job item in the final output. -/
def jobOutKey (j : JobItem) : Str := (lower j.title).take 50


/-- A candidate confidence is either invalid (`none`) or lies in `(0, 1]`. -/
def confOk (c : Option ℚ) : Prop := ∀ q, c = some q → 0 < q ∧ q ≤ 1


section genericLemmas

variable {α β : Type} {valid : α → Bool} {key : α → Str} {norm : α → β}

theorem str_contains_iff {a : Str} {l : List Str} :
    l.contains a = true ↔ a ∈ l := by
  simp [List.contains, List.elem_iff]

theorem pushNew_snd_mem {st : List Str × List α} {k : Str} {x y : α}
    (h : y ∈ (pushNew st k x).2) : y ∈ st.2 ∨ y = x := by
  unfold pushNew at h
  split at h
  · exact Or.inl h
  · rcases List.mem_append.mp h with h' | h'
    · exact Or.inl h'
    · exact Or.inr (List.mem_singleton.mp h')

theorem pushNew_inv {P : α → Prop} {st : List Str × List α} {k : Str} {x : α}
    (h : ∀ y ∈ st.2, P y) (hx : P x) : ∀ y ∈ (pushNew st k x).2, P y := by
  intro y hy
  rcases pushNew_snd_mem hy with h' | h'
  · exact h y h'
  · exact h' ▸ hx

theorem foldl_inv {γ : Type} {P : α → Prop}
    (step : (List Str × List α) → γ → (List Str × List α))
    (hstep : ∀ st b, (∀ y ∈ st.2, P y) → ∀ y ∈ (step st b).2, P y) :
    ∀ (l : List γ) (st : List Str × List α), (∀ y ∈ st.2, P y) →
      ∀ y ∈ (l.foldl step st).2, P y := by
  intro l
  induction l with
  | nil => intro st h; exact h
  | cons b bs ih => intro st h; exact ih (step st b) (hstep st b h)

theorem dedupGo_mem {seen : List Str} {l : List α} {y : β}
    (h : y ∈ dedupGo valid key norm seen l) :
    ∃ x ∈ l, valid x = true ∧ y = norm x := by
  induction l generalizing seen with
  | nil => simp [dedupGo] at h
  | cons x xs ih =>
    unfold dedupGo at h
    split at h
    · split at h
      · obtain ⟨z, hz, hv, hy⟩ := ih h
        exact ⟨z, List.mem_cons_of_mem _ hz, hv, hy⟩
      · rcases List.mem_cons.mp h with h' | h'
        · exact ⟨x, List.mem_cons_self x xs, by assumption, h'⟩
        · obtain ⟨z, hz, hv, hy⟩ := ih h'
          exact ⟨z, List.mem_cons_of_mem _ hz, hv, hy⟩
    · obtain ⟨z, hz, hv, hy⟩ := ih h
      exact ⟨z, List.mem_cons_of_mem _ hz, hv, hy⟩

/-- Every key of the deduplicated output is fresh relative to `seen`, and the
output keys are pairwise distinct. -/
theorem dedupGo_keys {keyOut : β → Str}
    (hk : ∀ a, valid a = true → keyOut (norm a) = key a) :
    ∀ (l : List α) (seen : List Str),
      (∀ y ∈ dedupGo valid key norm seen l, keyOut y ∉ seen) ∧
      ((dedupGo valid key norm seen l).map keyOut).Nodup := by
  intro l
  induction l with
  | nil => intro seen; simp [dedupGo]
  | cons x xs ih =>
    intro seen
    unfold dedupGo
    split
    · split
      · exact ih seen
      · constructor
        · intro y hy
          rcases List.mem_cons.mp hy with h' | h'
          · subst h'
            rw [hk x (by assumption)]
            intro hmem
            simp_all [str_contains_iff]
          · intro hmem
            exact (ih (key x :: seen)).1 y h' (List.mem_cons_of_mem _ hmem)
        · rw [List.map_cons, List.nodup_cons]
          refine ⟨?_, (ih (key x :: seen)).2⟩
          intro hmem
          obtain ⟨y, hy, hky⟩ := List.mem_map.mp hmem
          have := (ih (key x :: seen)).1 y hy
          rw [hky, hk x (by assumption)] at this
          exact this (List.mem_cons_self _ _)
    · exact ih seen

theorem dedupBy_keys_nodup {keyOut : β → Str}
    (hk : ∀ a, valid a = true → keyOut (norm a) = key a) (l : List α) :
    ((dedupBy valid key norm l).map keyOut).Nodup :=
  (dedupGo_keys hk l []).2

/-- The deduplicated output is a sublist of the normalised valid candidates:
first-seen order is preserved and kept items are normalised input items. -/
theorem dedupGo_sublist :
    ∀ (l : List α) (seen : List Str),
      (dedupGo valid key norm seen l).Sublist ((l.filter valid).map norm) := by
  intro l
  induction l with
  | nil => intro seen; simp [dedupGo]
  | cons x xs ih =>
    intro seen
    unfold dedupGo
    split
    · rename_i hv
      rw [List.filter_cons_of_pos hv, List.map_cons]
      split
      · exact (ih seen).cons _
      · exact (ih (key x :: seen)).cons₂ _
    · rename_i hv
      rw [List.filter_cons_of_neg (by simpa using hv)]
      exact ih seen

/-- The first valid occurrence of a key always survives deduplication,
normalised but otherwise unchanged. -/
theorem dedupGo_first_mem {pre post : List α} {x : α}
    (hx : valid x = true)
    (hpre : ∀ y ∈ pre, valid y = true → key y ≠ key x) :
    ∀ seen : List Str, key x ∉ seen →
      norm x ∈ dedupGo valid key norm seen (pre ++ x :: post) := by
  induction pre with
  | nil =>
    intro seen hseen
    simp only [List.nil_append]
    unfold dedupGo
    rw [hx]
    simp only [if_true]
    rw [if_neg (by simpa [str_contains_iff] using hseen)]
    exact List.mem_cons_self _ _
  | cons p ps ih =>
    intro seen hseen
    have hps : ∀ y ∈ ps, valid y = true → key y ≠ key x := fun y hy =>
      hpre y (List.mem_cons_of_mem _ hy)
    simp only [List.cons_append]
    unfold dedupGo
    split
    · rename_i hp
      split
      · exact ih hps seen hseen
      · refine List.mem_cons_of_mem _ (ih hps (key p :: seen) ?_)
        intro hmem
        rcases List.mem_cons.mp hmem with h' | h'
        · exact hpre p (List.mem_cons_self _ _) hp h'.symm
        · exact hseen h'
    · exact ih hps seen hseen

end genericLemmas


/-! ## Whitespace and truncation lemmas -/

theorem startsWithP_chars {n s : Str} (h : startsWithP n s = true) :
    ∀ c ∈ n, c ∈ s := by
  induction n generalizing s with
  | nil => intro c hc; cases hc
  | cons a as ih =>
    cases s with
    | nil => cases h
    | cons b bs =>
      simp only [startsWithP, Bool.and_eq_true, beq_iff_eq] at h
      intro c hc
      rcases List.mem_cons.mp hc with rfl | hc'
      · exact h.1 ▸ List.mem_cons_self _ _
      · exact List.mem_cons_of_mem _ (ih h.2 c hc')

theorem isSubstr_chars {n s : Str} (h : isSubstr n s = true) :
    ∀ c ∈ n, c ∈ s := by
  induction s with
  | nil =>
    intro c hc
    simp only [isSubstr, List.isEmpty_iff] at h
    subst h
    cases hc
  | cons b bs ih =>
    simp only [isSubstr, Bool.or_eq_true] at h
    intro c hc
    rcases h with h | h
    · exact startsWithP_chars h c hc
    · exact List.mem_cons_of_mem _ (ih h c hc)

theorem toLower_ws {c : Char} (h : isWs c = true) : Char.toLower c = c := by
  simp only [isWs, Bool.or_eq_true, beq_iff_eq] at h
  rcases h with ((rfl | rfl) | rfl) | rfl <;> decide

theorem lower_ws_eq {s : Str} (hs : s.all isWs = true) : lower s = s := by
  induction s with
  | nil => rfl
  | cons c t ih =>
    simp only [List.all_cons, Bool.and_eq_true] at hs
    simp only [lower, List.map_cons]
    rw [toLower_ws hs.1]
    exact congrArg _ (ih hs.2)

theorem isSubstr_ws_false {p s : Str} (hs : s.all isWs = true)
    (hp : p.any (fun c => !isWs c) = true) : isSubstr p s = false := by
  by_contra h
  have hsub := isSubstr_chars (Bool.of_not_eq_false h)
  obtain ⟨c, hc, hcw⟩ := List.any_eq_true.mp hp
  have := List.all_eq_true.mp hs c (hsub c hc)
  simp [this] at hcw

theorem containsPhrase_ws_false {s p : Str} (hs : s.all isWs = true)
    (hp : (lower p).any (fun c => !isWs c) = true) :
    containsPhrase s p = false := by
  unfold containsPhrase
  split
  · rfl
  · rw [lower_ws_eq hs]
    exact isSubstr_ws_false hs hp

theorem containsAny_ws_false {s : Str} {ps : List Str} (hs : s.all isWs = true)
    (hp : ∀ p ∈ ps, (lower p).any (fun c => !isWs c) = true) :
    containsAny s ps = false := by
  unfold containsAny
  split
  · rfl
  · rw [lower_ws_eq hs]
    refine List.any_eq_false.mpr ?_
    intro p hpmem
    simp [isSubstr_ws_false hs (hp p hpmem)]

theorem foldl_fixed {σ γ : Type} (step : σ → γ → σ) :
    ∀ (l : List γ), (∀ st b, b ∈ l → step st b = st) →
      ∀ st : σ, l.foldl step st = st := by
  intro l
  induction l with
  | nil => intro _ st; rfl
  | cons b bs ih =>
    intro h st
    rw [List.foldl_cons, h st b (List.mem_cons_self _ _)]
    exact ih (fun st' b' hb' => h st' b' (List.mem_cons_of_mem _ hb')) st

theorem ws_all_take {s : Str} {n : Nat} (hs : s.all isWs = true) :
    (s.take n).all isWs = true := by
  refine List.all_eq_true.mpr ?_
  intro c hc
  exact List.all_eq_true.mp hs c ((List.take_sublist n s).subset hc)

theorem jsTruncate_ws {s : Str} (hs : s.all isWs = true) :
    (jsTruncate s).all isWs = true := by
  unfold jsTruncate
  split
  · exact ws_all_take hs
  · exact hs

theorem take50000_isEmpty (s : Str) :
    (s.take 50000).isEmpty = s.isEmpty := by
  cases s <;> rfl

theorem jsTruncate_take (s : Str) :
    jsTruncate (s.take 50000) = jsTruncate s := by
  unfold jsTruncate
  rcases le_or_lt s.length 50000 with h | h
  · rw [List.take_of_length_le h, if_neg (by omega), if_neg (by omega)]
  · have hlen : (s.take 50000).length = 50000 := by
      simp [List.length_take]
      omega
    rw [if_neg (by omega), if_pos h]

/-- A whitespace-only text triggers none of the event checks and no event
type detection. -/
theorem extractEvents_ws {s : Str} (hs : s.all isWs = true) :
    extractEvents (some s) = [] := by
  unfold extractEvents
  dsimp only
  split
  · rfl
  · have ht : (jsTruncate s).all isWs = true := jsTruncate_ws hs
    set t := jsTruncate s with htdef
    unfold extractEventsFromText
    dsimp only
    rw [lower_ws_eq ht]
    rw [foldl_fixed _ _ ?hfix ([], [])]
    case hfix =>
      intro st b hb
      have hb1 : b.1 = false := by
        simp only [evChecks, List.mem_cons, List.not_mem_nil, or_false] at hb
        rcases hb with rfl | rfl | rfl | rfl | rfl <;>
          exact containsAny_ws_false ht (by decide)
      simp [hb1]
    have hnws : ∀ e ∈ EVENT_PATTERNS,
        (∀ p ∈ e.2.1, (lower p).any (fun c => !isWs c) = true) ∧
        (∀ p ∈ e.2.2, (lower p).any (fun c => !isWs c) = true) := by decide
    have hdet : detectEventType t = none := by
      unfold detectEventType
      dsimp only
      rw [lower_ws_eq ht]
      rw [List.find?_eq_none.mpr ?h1, List.find?_eq_none.mpr ?h2]
      case h1 =>
        intro e he
        simp [containsAny_ws_false ht (hnws e he).1]
      case h2 =>
        intro e he
        simp [containsAny_ws_false ht (hnws e he).2]
    rw [hdet]
    rfl

/-- A whitespace-only text triggers none of the tool checks nor the pattern
scan. -/
theorem extractTools_ws {s : Str} (hs : s.all isWs = true) :
    extractTools (some s) = [] := by
  unfold extractTools
  dsimp only
  split
  · rfl
  · have ht : (jsTruncate s).all isWs = true := jsTruncate_ws hs
    set t := jsTruncate s with htdef
    unfold extractToolsFromText
    dsimp only
    have hcp : ∀ p : Str, (lower p).any (fun c => !isWs c) = true →
        containsPhrase (lower t) p = false := by
      intro p hp
      rw [lower_ws_eq ht]
      exact containsPhrase_ws_false ht hp
    have hF1 : containsPhrase (lower t) "expo go".data = false := hcp _ (by decide)
    have hF2 : containsPhrase (lower t) "windows".data = false := hcp _ (by decide)
    have hF3 : containsPhrase (lower t) "chrome".data = false := hcp _ (by decide)
    have hF4 : containsPhrase (lower t) "cloud backed".data = false := hcp _ (by decide)
    have hF5 : containsPhrase (lower t) "cloud-backed".data = false := hcp _ (by decide)
    have hF6 : containsPhrase (lower t) "cloud storage".data = false := hcp _ (by decide)
    have hF7 : containsPhrase (lower t) "cloud backup".data = false := hcp _ (by decide)
    have hF8 : containsPhrase (lower t) "postgresql".data = false := hcp _ (by decide)
    have hF9 : containsPhrase (lower t) "postgres".data = false := hcp _ (by decide)
    have hF10 : containsPhrase (lower t) "android".data = false := hcp _ (by decide)
    have hF11 : containsPhrase (lower t) "my phone".data = false := hcp _ (by decide)
    have hF12 : containsPhrase (lower t) "phone".data = false := hcp _ (by decide)
    have hF13 : containsPhrase (lower t) "smartphone".data = false := hcp _ (by decide)
    have hF14 : containsPhrase (lower t) "android phone".data = false := hcp _ (by decide)
    have hF15 : containsPhrase (lower t) "pc".data = false := hcp _ (by decide)
    have hF16 : containsPhrase (lower t) "my pc".data = false := hcp _ (by decide)
    have hF17 : containsPhrase (lower t) "windows pc".data = false := hcp _ (by decide)
    have hF18 : containsPhrase (lower t) "laptop".data = false := hcp _ (by decide)
    have hF19 : containsPhrase (lower t) "my laptop".data = false := hcp _ (by decide)
    rw [foldl_fixed _ _ ?hchecks ([], []), foldl_fixed _ _ ?hscan ([], [])]
    case hchecks =>
      intro st b hb
      have hb1 : b.1 = false := by
        simp only [toolChecks, List.mem_cons, List.not_mem_nil, or_false] at hb
        rcases hb with rfl | rfl | rfl | rfl | rfl | rfl | rfl | rfl | rfl <;>
          simp [hF1, hF2, hF3, hF4, hF5, hF6, hF7, hF8, hF9, hF10, hF11, hF12, hF13, hF14, hF15, hF16, hF17, hF18, hF19]
      simp [hb1]
    case hscan =>
      intro st b hb
      have hp : (lower b.1).any (fun c => !isWs c) = true := by
        revert hb
        have : ∀ b' ∈ toolScanPatterns, (lower b'.1).any (fun c => !isWs c) = true := by
          decide
        exact this b
      simp [hcp _ hp]
    rfl


/-! ## Confidence invariants -/

theorem confOk_none : confOk none := by intro q h; cases h

theorem confOk_some {q : ℚ} (h0 : 0 < q) (h1 : q ≤ 1) : confOk (some q) := by
  intro q' hq
  cases hq
  exact ⟨h0, h1⟩

/-- The final confidence is in `(0, 1]` whenever the candidate confidence was
valid-and-in-bounds or invalid (in which case the default 0.5 is used). -/
theorem jsConf_bound {c : Option ℚ} (h : confOk c) :
    0 < jsConf c ∧ jsConf c ≤ 1 := by
  cases c with
  | none => exact ⟨by decide, by decide⟩
  | some q => exact h q rfl

theorem foldl_inv_mem {α γ : Type} {P : α → Prop}
    (step : (List Str × List α) → γ → (List Str × List α)) :
    ∀ (l : List γ),
      (∀ st b, b ∈ l → (∀ y ∈ st.2, P y) → ∀ y ∈ (step st b).2, P y) →
      ∀ st, (∀ y ∈ st.2, P y) → ∀ y ∈ (l.foldl step st).2, P y := by
  intro l
  induction l with
  | nil => intro _ st h; exact h
  | cons b bs ih =>
    intro hstep st h
    exact ih (fun st' b' hb' => hstep st' b' (List.mem_cons_of_mem _ hb'))
      (step st b) (hstep st b (List.mem_cons_self _ _) h)

/-- Every event candidate's confidence is a constant in `(0, 1]`. -/
theorem evCands_confOk (text : Str) :
    ∀ c ∈ extractEventsFromText text, confOk c.confidence := by
  intro c hc
  unfold extractEventsFromText at hc
  dsimp only at hc
  split at hc
  · split at hc
    · rcases List.mem_singleton.mp hc with rfl
      exact confOk_some (by decide) (by decide)
    · cases hc
  · refine @foldl_inv_mem EventCand _ (fun y => confOk y.confidence)
      _ _ ?_ _ (by simp) c hc
    intro st b hb hinv
    dsimp only
    split
    · refine pushNew_inv hinv ?_
      simp only [evChecks, List.mem_cons, List.not_mem_nil, or_false] at hb
      rcases hb with rfl | rfl | rfl | rfl | rfl <;>
        exact confOk_some (by decide) (by decide)
    · exact hinv

/-- Every tool candidate's confidence is a constant in `(0, 1]`. -/
theorem toolCands_confOk (text : Str) :
    ∀ c ∈ extractToolsFromText text, confOk c.confidence := by
  intro c hc
  unfold extractToolsFromText at hc
  dsimp only at hc
  refine @foldl_inv_mem ToolCand _ (fun y => confOk y.confidence)
      _ _ ?_ _ ?_ c hc
  · intro st b hb hinv
    dsimp only
    split
    · split
      · exact pushNew_inv hinv (confOk_some (by decide) (by decide))
      · exact hinv
    · exact hinv
  · refine @foldl_inv_mem ToolCand _ (fun y => confOk y.confidence)
      _ _ ?_ _ (by simp)
    intro st b hb hinv
    dsimp only
    split
    · refine pushNew_inv hinv ?_
      simp only [toolChecks, List.mem_cons, List.not_mem_nil, or_false] at hb
      rcases hb with rfl | rfl | rfl | rfl | rfl | rfl | rfl | rfl | rfl <;>
        exact confOk_some (by decide) (by decide)
    · exact hinv

/-- The fallback scan's confidence is 0.90 for a pattern-tier detection and
0.70 for a keyword-tier detection. -/
theorem detectWarningType_conf {t : Str} {d : Str × ℚ}
    (h : detectWarningType t = some d) :
    d.2 = mkRat 9 10 ∨ d.2 = mkRat 7 10 := by
  unfold detectWarningType at h
  dsimp only at h
  split at h
  · exact Or.inl (by cases h; rfl)
  · split at h
    · exact Or.inr (by cases h; rfl)
    · cases h

/-- `procWMatches` preserves the confidence invariant when the strategy's
base confidence is in `(0, 1]`. -/
theorem procWMatches_confOk {conf : ℚ} (h0 : 0 < conf) (h1 : conf ≤ 1)
    (defType : Str) (ms : List (Option Str × Str)) (st : List Str × List WCand)
    (hinv : ∀ y ∈ st.2, confOk y.confidence) :
    ∀ y ∈ (procWMatches conf defType ms st).2, confOk y.confidence := by
  unfold procWMatches
  refine @foldl_inv_mem WCand _ (fun y => confOk y.confidence) _ _ ?_ _ hinv
  intro st' m hm hinv'
  dsimp only
  exact pushNew_inv hinv' (confOk_some h0 h1)

/-- Every warnings candidate's confidence is a constant in `(0, 1]`. -/
theorem wCands_confOk (md : WMatchData) (text : Str) :
    ∀ c ∈ extractWarningSignals md text, confOk c.confidence := by
  intro c hc
  unfold extractWarningSignals at hc
  dsimp only at hc
  split at hc
  · unfold warningsFallback at hc
    split at hc
    · rename_i d hd
      rcases List.mem_singleton.mp hc with rfl
      rcases detectWarningType_conf hd with h | h <;>
        · rw [h]; exact confOk_some (by decide) (by decide)
    · cases hc
  · unfold warningsStrategyPhase at hc
    dsimp only at hc
    refine procWMatches_confOk (by decide) (by decide) _ _ _ ?_ c hc
    refine procWMatches_confOk (by decide) (by decide) _ _ _ ?_
    refine procWMatches_confOk (by decide) (by decide) _ _ _ ?_
    refine procWMatches_confOk (by decide) (by decide) _ _ _ ?_
    refine procWMatches_confOk (by decide) (by decide) _ _ _ ?_
    refine procWMatches_confOk (by decide) (by decide) _ _ _ ?_
    refine procWMatches_confOk (by decide) (by decide) _ _ _ ?_
    refine procWMatches_confOk (by decide) (by decide) _ _ _ ?_
    simp

/-- Each goals phase preserves the confidence invariant. -/
theorem goalsPhaseMulti_confOk (rd : GoalMatchData) (text : Str)
    (st : List Str × List GoalCand) (h : ∀ y ∈ st.2, confOk y.confidence) :
    ∀ y ∈ (goalsPhaseMulti rd text st).2, confOk y.confidence := by
  unfold goalsPhaseMulti
  split
  · split
    · exact h
    · dsimp only
      split
      · split
        · exact pushNew_inv (pushNew_inv h (confOk_some (by decide) (by decide)))
            (confOk_some (by decide) (by decide))
        · exact pushNew_inv h (confOk_some (by decide) (by decide))
      · split
        · exact pushNew_inv h (confOk_some (by decide) (by decide))
        · exact h
  · exact h

theorem goalsPhaseMigrate_confOk (rd : GoalMatchData)
    (st : List Str × List GoalCand) (h : ∀ y ∈ st.2, confOk y.confidence) :
    ∀ y ∈ (goalsPhaseMigrate rd st).2, confOk y.confidence := by
  unfold goalsPhaseMigrate
  split
  · split
    · exact h
    · dsimp only
      split
      · exact pushNew_inv h (confOk_some (by decide) (by decide))
      · exact h
  · exact h

theorem goalsPhaseLearn_confOk (rd : GoalMatchData)
    (st : List Str × List GoalCand) (h : ∀ y ∈ st.2, confOk y.confidence) :
    ∀ y ∈ (goalsPhaseLearn rd st).2, confOk y.confidence := by
  unfold goalsPhaseLearn
  split
  · split
    · exact h
    · dsimp only
      split
      · exact pushNew_inv h (confOk_some (by decide) (by decide))
      · exact h
  · exact h

theorem goalsPhaseFocus_confOk (rd : GoalMatchData)
    (st : List Str × List GoalCand) (h : ∀ y ∈ st.2, confOk y.confidence) :
    ∀ y ∈ (goalsPhaseFocus rd st).2, confOk y.confidence := by
  unfold goalsPhaseFocus
  split
  · split
    · exact h
    · dsimp only
      split
      · exact pushNew_inv h (confOk_some (by decide) (by decide))
      · exact h
  · exact h

theorem goalsPhaseGeneral_confOk (rd : GoalMatchData)
    (st : List Str × List GoalCand) (h : ∀ y ∈ st.2, confOk y.confidence) :
    ∀ y ∈ (goalsPhaseGeneral rd st).2, confOk y.confidence := by
  unfold goalsPhaseGeneral
  split
  · split
    · exact h
    · dsimp only
      split
      · exact pushNew_inv h (confOk_some (by decide) (by decide))
      · exact h
  · exact h

theorem goalsPhaseNlp_confOk (rd : GoalMatchData)
    (st : List Str × List GoalCand) (h : ∀ y ∈ st.2, confOk y.confidence) :
    ∀ y ∈ (goalsPhaseNlp rd st).2, confOk y.confidence := by
  unfold goalsPhaseNlp
  refine @foldl_inv_mem GoalCand _ (fun y => confOk y.confidence) _ _ ?_ _ h
  intro st' m hm hinv
  dsimp only
  split
  · exact pushNew_inv hinv (confOk_some (by decide) (by decide))
  · exact hinv

/-- Every goals candidate's confidence is a constant in `(0, 1]`. -/
theorem goalCands_confOk (rd : GoalMatchData) (text : Str) :
    ∀ c ∈ extractGoalDescriptions rd text, confOk c.confidence := by
  intro c hc
  unfold extractGoalDescriptions at hc
  dsimp only at hc
  refine goalsPhaseNlp_confOk _ _ ?_ c hc
  have h4 := goalsPhaseFocus_confOk rd _
    (goalsPhaseLearn_confOk rd _
      (goalsPhaseMigrate_confOk rd _
        (goalsPhaseMulti_confOk rd text ([], []) (by simp))))
  split
  · exact goalsPhaseGeneral_confOk rd _ h4
  · exact h4

/-- Each jobs phase preserves the confidence invariant. -/
theorem jobsPhasePaused_confOk (rd : JobMatchData)
    (st : List Str × List JobCand) (h : ∀ y ∈ st.2, confOk y.confidence) :
    ∀ y ∈ (jobsPhasePaused rd st).2, confOk y.confidence := by
  unfold jobsPhasePaused
  split
  · split
    · exact h
    · split
      · exact pushNew_inv h (confOk_some (by decide) (by decide))
      · exact h
  · exact h

theorem jobsPhaseCurrently_confOk (rd : JobMatchData)
    (st : List Str × List JobCand) (h : ∀ y ∈ st.2, confOk y.confidence) :
    ∀ y ∈ (jobsPhaseCurrently rd st).2, confOk y.confidence := by
  unfold jobsPhaseCurrently
  split
  · split
    · exact h
    · split
      · exact pushNew_inv h (confOk_some (by decide) (by decide))
      · exact h
  · exact h

theorem jobsPhaseBuilding_confOk (rd : JobMatchData)
    (st : List Str × List JobCand) (h : ∀ y ∈ st.2, confOk y.confidence) :
    ∀ y ∈ (jobsPhaseBuilding rd st).2, confOk y.confidence := by
  unfold jobsPhaseBuilding
  split
  · split
    · exact h
    · split
      · exact pushNew_inv h (confOk_some (by decide) (by decide))
      · exact h
  · exact h

theorem jobsPhaseWorkingOn_confOk (rd : JobMatchData) (text lowerText : Str)
    (st : List Str × List JobCand) (h : ∀ y ∈ st.2, confOk y.confidence) :
    ∀ y ∈ (jobsPhaseWorkingOn rd text lowerText st).2, confOk y.confidence := by
  unfold jobsPhaseWorkingOn
  split
  · split
    · exact h
    · split
      · split
        · exact pushNew_inv h (confOk_some (by decide) (by decide))
        · exact h
      · exact h
  · exact h

theorem jobsPhaseNlp_confOk (rd : JobMatchData)
    (st : List Str × List JobCand) (h : ∀ y ∈ st.2, confOk y.confidence) :
    ∀ y ∈ (jobsPhaseNlp rd st).2, confOk y.confidence := by
  unfold jobsPhaseNlp
  refine @foldl_inv_mem JobCand _ (fun y => confOk y.confidence) _ _ ?_ _ h
  intro st' m hm hinv
  dsimp only
  split
  · exact hinv
  · split
    · split
      · exact pushNew_inv hinv (confOk_some (by decide) (by decide))
      · exact hinv
    · exact hinv

/-- Every jobs candidate's confidence is a constant in `(0, 1]`. -/
theorem jobCands_confOk (rd : JobMatchData) (text : Str) :
    ∀ c ∈ extractJobsFromText rd text, confOk c.confidence := by
  intro c hc
  unfold extractJobsFromText at hc
  dsimp only at hc
  exact jobsPhaseNlp_confOk _ _
    (jobsPhaseWorkingOn_confOk _ _ _ _
      (jobsPhaseBuilding_confOk _ _
        (jobsPhaseCurrently_confOk _ _
          (jobsPhasePaused_confOk _ _ (by simp))))) c hc


/-! ## Claim theorems -/

/-- C1.  For every input value — non-string (`none`), the empty string, or a
string of any length — `extractContext` returns the full fixed-key response
(the thirteen category arrays plus `meta` are the fields of
`ContextResponse`, so they are present on every return path), the function is
total (it is a Lean function, mirroring the aggregator's outermost
`try`/`catch`), `meta` always carries the source label, parser version and
timestamp, and for non-string input every category array is empty. -/
theorem extractContext_fixed_skeleton :
    ∀ (E : Extractors) (v : Option Str) (src : Option Str) (t : Str),
      (extractContext E v src t).meta = generateMeta src t ∧
      (v = none → extractContext E v src t = emptyResponse src t) := by
  intro E v src t
  constructor
  · cases v with
    | none => rfl
    | some s =>
      unfold extractContext
      dsimp only
      split
      · rfl
      · cases h : runAll E (jsTruncate s) <;> simp [h, emptyResponse]
  · intro h
    subst h
    rfl

/-- C1 witness: at a concrete non-string input the skeleton with empty arrays
and populated meta is returned. -/
theorem extractContext_fixed_skeleton_witness :
    extractContext stubExtractors none (some "api".data) "2026-10-11".data =
      emptyResponse (some "api".data) "2026-10-11".data :=
  (extractContext_fixed_skeleton stubExtractors none (some "api".data)
    "2026-10-11".data).2 rfl

/-- C2.  The aggregator never invokes the events module: the `events` key of
every `extractContext` response is hardcoded to `[]` (src/index.js line 106,
"Events module not yet implemented"), although the events extractor exists
and, on the repository's own test input (test 3 of the semantic extraction
tests), returns a travel event — which that test expects to see in the
`extractContext` output. -/
theorem extractContext_events_hardcoded_empty :
    (∀ (E : Extractors) (v : Option Str) (src : Option Str) (t : Str),
      (extractContext E v src t).events = []) ∧
    extractEvents
        (some "I\'m on a train and can\'t really work properly with just my Android phone.".data) =
      [⟨"travel".data, [("mode".data, "train".data)],
        ("present".data, "short".data), mkRat 9 10⟩] := by
  constructor
  · intro E v src t
    cases v with
    | none => rfl
    | some s =>
      unfold extractContext
      dsimp only
      split
      · rfl
      · cases h : runAll E (jsTruncate s) <;> simp [h, emptyResponse]
  · decide

/-- C3 counterexample.  Replacing exactly one category extractor (goals) by a
throwing function changes the output of another category (tools): with the
real tools module the tools array is non-empty, with the throwing goals
extractor the aggregator's single `try`/`catch` returns the all-empty
skeleton, so the tools array differs. -/
theorem category_throw_changes_sibling :
    (extractContext toolsExtractors (some "I use my Windows PC".data) none
        "ts".data).tools =
      [⟨"software".data, "windows".data, "in_use".data, mkRat 19 20⟩,
       ⟨"hardware".data, "pc".data, "in_use".data, mkRat 9 10⟩] ∧
    (extractContext throwingGoalsExtractors (some "I use my Windows PC".data)
        none "ts".data).tools = [] ∧
    (extractContext toolsExtractors (some "I use my Windows PC".data) none
        "ts".data).tools ≠
      (extractContext throwingGoalsExtractors (some "I use my Windows PC".data)
        none "ts".data).tools := by
  refine ⟨by decide, by decide, by decide⟩

/-- C3 amended.  A throwing category extractor is not isolated per category:
it makes `extractContext` return the full empty skeleton (valid meta, every
category array empty), so every other category's output is emptied rather
than left unchanged. -/
theorem extractor_throw_empties_all :
    ∀ (E : Extractors) (s : Str) (src : Option Str) (t : Str),
      E.goals (jsTruncate s) = .error () →
      extractContext E (some s) src t = emptyResponse src t := by
  intro E s src t h
  unfold extractContext
  dsimp only
  split
  · rfl
  · have hrun : runAll E (jsTruncate s) = .error () := by
      unfold runAll
      cases hid : E.identity (jsTruncate s) <;>
        simp [hid, h, Except.bind, Bind.bind]
    rw [hrun]

/-- C3 amended witness: with the goals slot throwing, a concrete call
returns the all-empty skeleton. -/
theorem extractor_throw_empties_all_witness :
    extractContext throwingGoalsExtractors (some "I use my Windows PC".data)
      none "ts".data = emptyResponse none "ts".data :=
  extractor_throw_empties_all throwingGoalsExtractors
    "I use my Windows PC".data none "ts".data rfl

/-- C4 counterexample.  On a key collision the implemented deduplicator does
not replace the kept item's confidence with a strictly higher colliding
confidence, and does not fill the kept item's absent `related_to` from the
discarded item: it discards the colliding item outright, unlike the
deduplicator the claim describes (`specDedupWarnings`). -/
theorem dedup_discards_instead_of_merging :
    deduplicateWarnings
        [⟨"data_loss".data, none, "r1".data, some (mkRat 1 2)⟩,
         ⟨"data_loss".data, some "pc_reset".data, "r2".data, some (mkRat 9 10)⟩] =
      [⟨"data_loss".data, none, mkRat 1 2⟩] ∧
    specDedupWarnings
        [⟨"data_loss".data, none, "r1".data, some (mkRat 1 2)⟩,
         ⟨"data_loss".data, some "pc_reset".data, "r2".data, some (mkRat 9 10)⟩] =
      [⟨"data_loss".data, some "pc_reset".data, mkRat 9 10⟩] ∧
    deduplicateWarnings
        [⟨"data_loss".data, none, "r1".data, some (mkRat 1 2)⟩,
         ⟨"data_loss".data, some "pc_reset".data, "r2".data, some (mkRat 9 10)⟩] ≠
      specDedupWarnings
        [⟨"data_loss".data, none, "r1".data, some (mkRat 1 2)⟩,
         ⟨"data_loss".data, some "pc_reset".data, "r2".data, some (mkRat 9 10)⟩] :=
  ⟨by decide, by decide, by decide⟩

/-- C4 amended.  The deduplicators keep the first-seen item of every dedup
key, preserving first-seen order, and a colliding item is discarded outright:
the output is a sublist of the normalised valid candidates (so a kept item's
confidence and fields come from one input item, unchanged by later
collisions), and the first valid occurrence of a key always survives as-is
(up to normalisation).  Stated for the warnings, goals and jobs
deduplicators. -/
theorem dedup_keeps_first_discards_collisions :
    (∀ l : List WCand,
      (deduplicateWarnings l).Sublist ((l.filter wValid).map wNorm)) ∧
    (∀ (pre post : List WCand) (x : WCand), wValid x = true →
      (∀ y ∈ pre, wValid y = true → wKey y ≠ wKey x) →
      wNorm x ∈ deduplicateWarnings (pre ++ x :: post)) ∧
    (∀ l : List GoalCand,
      (deduplicateGoals l).Sublist ((l.filter gValid).map gNorm)) ∧
    (∀ (pre post : List GoalCand) (x : GoalCand), gValid x = true →
      (∀ y ∈ pre, gValid y = true → gKey y ≠ gKey x) →
      gNorm x ∈ deduplicateGoals (pre ++ x :: post)) ∧
    (∀ l : List JobCand,
      (deduplicateJobs l).Sublist ((l.filter jValid).map jNorm)) ∧
    (∀ (pre post : List JobCand) (x : JobCand), jValid x = true →
      (∀ y ∈ pre, jValid y = true → jKey y ≠ jKey x) →
      jNorm x ∈ deduplicateJobs (pre ++ x :: post)) :=
  ⟨fun l => dedupGo_sublist l [],
   fun pre post x hx hpre => dedupGo_first_mem hx hpre [] (by simp),
   fun l => dedupGo_sublist l [],
   fun pre post x hx hpre => dedupGo_first_mem hx hpre [] (by simp),
   fun l => dedupGo_sublist l [],
   fun pre post x hx hpre => dedupGo_first_mem hx hpre [] (by simp)⟩

/-- C4 amended witness: the first occurrence of a colliding key survives
unchanged at a concrete input. -/
theorem dedup_keeps_first_discards_collisions_witness :
    wNorm ⟨"data_loss".data, none, "r1".data, some (mkRat 1 2)⟩ ∈
      deduplicateWarnings
        [⟨"general".data, none, "r0".data, some (mkRat 3 4)⟩,
         ⟨"data_loss".data, none, "r1".data, some (mkRat 1 2)⟩,
         ⟨"data_loss".data, some "pc_reset".data, "r2".data, some (mkRat 9 10)⟩] :=
  dedup_keeps_first_discards_collisions.2.1
    [⟨"general".data, none, "r0".data, some (mkRat 3 4)⟩]
    [⟨"data_loss".data, some "pc_reset".data, "r2".data, some (mkRat 9 10)⟩]
    ⟨"data_loss".data, none, "r1".data, some (mkRat 1 2)⟩
    (by decide) (by decide)

/-- C5.  In every extractor output, no two items share the category's dedup
key: for goals the lower-cased whitespace-collapsed description truncated to
50 characters, for tools the string `type:name`, for warnings the type (and
additionally for events the name and for jobs the lower-cased title truncated
to 50 characters). -/
theorem extractor_outputs_have_unique_keys :
    (∀ (az : Str → GoalMatchData) (v : Option Str),
      ((extractGoals az v).map goalOutKey).Nodup) ∧
    (∀ v : Option Str, ((extractTools v).map toolOutKey).Nodup) ∧
    (∀ (az : Str → WMatchData) (v : Option Str),
      ((extractWarnings az v).map WarnItem.type).Nodup) ∧
    (∀ v : Option Str, ((extractEvents v).map EventItem.name).Nodup) ∧
    (∀ (az : Str → JobMatchData) (v : Option Str),
      ((extractJobs az v).map jobOutKey).Nodup) := by
  refine ⟨?_, ?_, ?_, ?_, ?_⟩
  · intro az v
    cases v with
    | none => simp [extractGoals]
    | some s =>
      unfold extractGoals
      dsimp only
      split
      · simp
      · exact @dedupBy_keys_nodup GoalCand GoalItem gValid gKey gNorm goalOutKey
          (fun a _ => rfl) _
  · intro v
    cases v with
    | none => simp [extractTools]
    | some s =>
      unfold extractTools
      dsimp only
      split
      · simp
      · exact @dedupBy_keys_nodup ToolCand ToolItem toolValid toolKey toolNorm
          toolOutKey (fun a _ => rfl) _
  · intro az v
    cases v with
    | none => simp [extractWarnings]
    | some s =>
      unfold extractWarnings
      dsimp only
      split
      · simp
      · exact @dedupBy_keys_nodup WCand WarnItem wValid wKey wNorm WarnItem.type
          (fun a _ => rfl) _
  · intro v
    cases v with
    | none => simp [extractEvents]
    | some s =>
      unfold extractEvents
      dsimp only
      split
      · simp
      · exact @dedupBy_keys_nodup EventCand EventItem evValid evKey evNorm
          EventItem.name (fun a _ => rfl) _
  · intro az v
    cases v with
    | none => simp [extractJobs]
    | some s =>
      unfold extractJobs
      dsimp only
      split
      · simp
      · exact @dedupBy_keys_nodup JobCand JobItem jValid jKey jNorm jobOutKey
          (fun a _ => rfl) _

/-- C6.  Every item in an extractor's final output has a confidence that is a
rational number strictly greater than 0 and at most 1 (stated for the five
embedded categories, over every analyzer/regex match result), and an item
whose candidate carried no valid numeric confidence receives the default 0.5
in the deduplicator. -/
theorem confidence_in_unit_interval :
    (∀ (v : Option Str) (e : EventItem), e ∈ extractEvents v →
      0 < e.confidence ∧ e.confidence ≤ 1) ∧
    (∀ (v : Option Str) (t : ToolItem), t ∈ extractTools v →
      0 < t.confidence ∧ t.confidence ≤ 1) ∧
    (∀ (az : Str → GoalMatchData) (v : Option Str) (g : GoalItem),
      g ∈ extractGoals az v → 0 < g.confidence ∧ g.confidence ≤ 1) ∧
    (∀ (az : Str → WMatchData) (v : Option Str) (w : WarnItem),
      w ∈ extractWarnings az v → 0 < w.confidence ∧ w.confidence ≤ 1) ∧
    (∀ (az : Str → JobMatchData) (v : Option Str) (j : JobItem),
      j ∈ extractJobs az v → 0 < j.confidence ∧ j.confidence ≤ 1) ∧
    (∀ (c : GoalCand) (l : List GoalCand), gValid c = true →
      c.confidence = none →
      (deduplicateGoals (c :: l)).head? = some (gNorm c) ∧
      (gNorm c).confidence = mkRat 1 2) := by
  refine ⟨?_, ?_, ?_, ?_, ?_, ?_⟩
  · intro v e he
    cases v with
    | none => simp [extractEvents] at he
    | some s =>
      unfold extractEvents at he
      dsimp only at he
      split at he
      · simp at he
      · unfold deduplicateEvents dedupBy at he
        obtain ⟨c, hcmem, hcv, rfl⟩ := dedupGo_mem he
        exact jsConf_bound (evCands_confOk _ c hcmem)
  · intro v t ht
    cases v with
    | none => simp [extractTools] at ht
    | some s =>
      unfold extractTools at ht
      dsimp only at ht
      split at ht
      · simp at ht
      · unfold deduplicateTools dedupBy at ht
        obtain ⟨c, hcmem, hcv, rfl⟩ := dedupGo_mem ht
        exact jsConf_bound (toolCands_confOk _ c hcmem)
  · intro az v g hg
    cases v with
    | none => simp [extractGoals] at hg
    | some s =>
      unfold extractGoals at hg
      dsimp only at hg
      split at hg
      · simp at hg
      · unfold deduplicateGoals dedupBy at hg
        obtain ⟨c, hcmem, hcv, rfl⟩ := dedupGo_mem hg
        exact jsConf_bound (goalCands_confOk _ _ c hcmem)
  · intro az v w hw
    cases v with
    | none => simp [extractWarnings] at hw
    | some s =>
      unfold extractWarnings at hw
      dsimp only at hw
      split at hw
      · simp at hw
      · unfold deduplicateWarnings dedupBy at hw
        obtain ⟨c, hcmem, hcv, rfl⟩ := dedupGo_mem hw
        exact jsConf_bound (wCands_confOk _ _ c hcmem)
  · intro az v j hj
    cases v with
    | none => simp [extractJobs] at hj
    | some s =>
      unfold extractJobs at hj
      dsimp only at hj
      split at hj
      · simp at hj
      · unfold deduplicateJobs dedupBy at hj
        obtain ⟨c, hcmem, hcv, rfl⟩ := dedupGo_mem hj
        exact jsConf_bound (jobCands_confOk _ _ c hcmem)
  · intro c l hv hn
    constructor
    · unfold deduplicateGoals dedupBy dedupGo
      simp [hv]
    · simp [gNorm, hn, jsConf]

/-- C6 witness: a concrete in-bounds confidence from the tools extractor, and
the default 0.5 substitution on a concrete invalid-confidence candidate. -/
theorem confidence_in_unit_interval_witness :
    (0 < (⟨"software".data, "windows".data, "in_use".data,
        mkRat 19 20⟩ : ToolItem).confidence ∧
      (⟨"software".data, "windows".data, "in_use".data,
        mkRat 19 20⟩ : ToolItem).confidence ≤ 1) ∧
    ((deduplicateGoals
        [⟨"learn docker properly".data, "medium".data, "active".data, none⟩]).head? =
      some (gNorm ⟨"learn docker properly".data, "medium".data, "active".data, none⟩) ∧
     (gNorm ⟨"learn docker properly".data, "medium".data, "active".data,
        none⟩).confidence = mkRat 1 2) :=
  ⟨confidence_in_unit_interval.2.1 (some "using windows".data)
      ⟨"software".data, "windows".data, "in_use".data, mkRat 19 20⟩ (by decide),
   confidence_in_unit_interval.2.2.2.2.2
      ⟨"learn docker properly".data, "medium".data, "active".data, none⟩ []
      (by decide) rfl⟩

/-- C7.  For a fixed input, source option and extractor record, two calls
differ at most in `meta.timestamp`: the response of the first call equals the
response of the second call with its timestamp replaced. -/
theorem extractContext_deterministic :
    ∀ (E : Extractors) (v : Option Str) (src : Option Str) (t1 t2 : Str),
      extractContext E v src t1 = withTimestamp (extractContext E v src t2) t1 := by
  intro E v src t1 t2
  cases v with
  | none => rfl
  | some s =>
    unfold extractContext
    dsimp only
    split
    · rfl
    · cases h : runAll E (jsTruncate s) <;> simp [h, withTimestamp, emptyResponse, generateMeta]

/-- C8 counterexample.  A warnings fallback item does not always carry a
strictly lower confidence than a strategy-produced item: the fallback's
pattern tier pushes confidence 0.90 (here on "worried about my data"), while
the `careful` strategy pushes its items with confidence 0.75. -/
theorem fallback_confidence_not_always_lower :
    ¬ (∀ (t1 : Str) (f : WCand), f ∈ warningsFallback t1 →
        ∀ (md : WMatchData) (s : WCand), s ∈ warningsStrategyPhase md →
        ∀ qf qs : ℚ, f.confidence = some qf → s.confidence = some qs →
        qf < qs) := by
  intro h
  have hf : (⟨"general".data, none, "worried about my data".data.take 100,
      some (mkRat 9 10)⟩ : WCand) ∈
      warningsFallback "worried about my data".data := by decide
  have hs : (⟨"general".data, none, "be careful".data,
      some (mkRat 3 4)⟩ : WCand) ∈
      warningsStrategyPhase ⟨[], [], [], [], [], [], [], ["be careful".data]⟩ := by
    decide
  have hlt := h _ _ hf _ _ hs (mkRat 9 10) (mkRat 3 4) rfl rfl
  exact absurd hlt (by decide)

/-- C8 amended.  The warnings fallback runs only when the strategy phase
produced nothing, and it carries confidence 0.90 (pattern tier) or 0.70
(keyword tier); only the keyword tier is strictly below every strategy
confidence (the strategy table's minimum is 0.75), the pattern tier is not. -/
theorem fallback_tier_confidences :
    (∀ (t : Str) (f : WCand), f ∈ warningsFallback t →
      f.confidence = some (mkRat 9 10) ∨ f.confidence = some (mkRat 7 10)) ∧
    (∀ q ∈ warningsStrategyTable.map Prod.snd, mkRat 7 10 < q) ∧
    (∀ (md : WMatchData) (t : Str), (warningsStrategyPhase md).isEmpty = false →
      extractWarningSignals md t = warningsStrategyPhase md) := by
  refine ⟨?_, by decide, ?_⟩
  · intro t f hf
    unfold warningsFallback at hf
    split at hf
    · rename_i d hd
      rcases List.mem_singleton.mp hf with rfl
      rcases detectWarningType_conf hd with h | h
      · exact Or.inl (by simp [h])
      · exact Or.inr (by simp [h])
    · cases hf
  · intro md t h
    unfold extractWarningSignals
    simp [h]

/-- C8 amended witness: a concrete keyword-tier fallback item has confidence
in the stated set, and the keyword tier is below the `careful` strategy's
0.75. -/
theorem fallback_tier_confidences_witness :
    ((⟨"security".data, none, "password".data, some (mkRat 7 10)⟩ : WCand).confidence
        = some (mkRat 9 10) ∨
     (⟨"security".data, none, "password".data, some (mkRat 7 10)⟩ : WCand).confidence
        = some (mkRat 7 10)) ∧
    mkRat 7 10 < mkRat 3 4 :=
  ⟨fallback_tier_confidences.1 "password".data
      ⟨"security".data, none, "password".data, some (mkRat 7 10)⟩ (by decide),
   fallback_tier_confidences.2.1 (mkRat 3 4) (by decide)⟩

/-- C9.  Totality guarantees of the per-category entry points, for the five
embedded extractors: non-string input (`none`) and the empty string yield
`[]`; whitespace-only input yields `[]` (provable outright for the two
keyword-only extractors; for the analyzer-backed goals extractor it holds
whenever the analyzer/regex data reports no matches, which the source's
regexes — all anchored on literal words — do on whitespace); input is
truncated to 50,000 characters before any processing, so the result on a
longer string equals the result on its first 50,000 characters; and every
extractor is a total function (never throws). -/
theorem extractor_totality_guarantees :
    (extractEvents none = [] ∧ extractEvents (some []) = []) ∧
    (extractTools none = [] ∧ extractTools (some []) = []) ∧
    (∀ az : Str → GoalMatchData,
      extractGoals az none = [] ∧ extractGoals az (some []) = []) ∧
    (∀ az : Str → WMatchData,
      extractWarnings az none = [] ∧ extractWarnings az (some []) = []) ∧
    (∀ az : Str → JobMatchData,
      extractJobs az none = [] ∧ extractJobs az (some []) = []) ∧
    (∀ s : Str, s.all isWs = true →
      extractEvents (some s) = [] ∧ extractTools (some s) = []) ∧
    (∀ s : Str, extractEvents (some s) = extractEvents (some (s.take 50000)) ∧
      extractTools (some s) = extractTools (some (s.take 50000))) ∧
    (∀ (az : Str → GoalMatchData) (s : Str),
      extractGoals az (some s) = extractGoals az (some (s.take 50000))) ∧
    (∀ (az : Str → WMatchData) (s : Str),
      extractWarnings az (some s) = extractWarnings az (some (s.take 50000))) ∧
    (∀ (az : Str → JobMatchData) (s : Str),
      extractJobs az (some s) = extractJobs az (some (s.take 50000))) ∧
    (∀ (az : Str → GoalMatchData) (s : Str),
      az (jsTruncate s) = ⟨none, none, none, none, none, []⟩ →
      extractGoals az (some s) = []) := by
  refine ⟨⟨rfl, rfl⟩, ⟨rfl, rfl⟩, fun az => ⟨rfl, rfl⟩, fun az => ⟨rfl, rfl⟩,
    fun az => ⟨rfl, rfl⟩, ?_, ?_, ?_, ?_, ?_, ?_⟩
  · intro s hs
    exact ⟨extractEvents_ws hs, extractTools_ws hs⟩
  · intro s
    constructor
    · unfold extractEvents
      dsimp only
      rw [take50000_isEmpty, jsTruncate_take]
    · unfold extractTools
      dsimp only
      rw [take50000_isEmpty, jsTruncate_take]
  · intro az s
    unfold extractGoals
    dsimp only
    rw [take50000_isEmpty, jsTruncate_take]
  · intro az s
    unfold extractWarnings
    dsimp only
    rw [take50000_isEmpty, jsTruncate_take]
  · intro az s
    unfold extractJobs
    dsimp only
    rw [take50000_isEmpty, jsTruncate_take]
  · intro az s h
    unfold extractGoals
    dsimp only
    split
    · rfl
    · rw [h]
      rfl

/-- C9 witness: whitespace-only input yields `[]` on concrete calls, with
concrete hypotheses discharged. -/
theorem extractor_totality_guarantees_witness :
    (extractEvents (some "  ".data) = [] ∧ extractTools (some "  ".data) = []) ∧
    extractGoals (fun _ => ⟨none, none, none, none, none, []⟩)
      (some "   ".data) = [] :=
  ⟨extractor_totality_guarantees.2.2.2.2.2.1 "  ".data (by decide),
   extractor_totality_guarantees.2.2.2.2.2.2.2.2.2.2
     (fun _ => ⟨none, none, none, none, none, []⟩) "   ".data rfl⟩

/-- C10.  `isValidJob` accepts any text containing a paused indicator, and
otherwise rejects any text containing a goal-tense indicator (such as
"want to", "planning to") or a completed-tense indicator (such as "built",
"finished"). -/
theorem isValidJob_tense_markers :
    (∀ s : Str, containsAny (lower s) PAUSED_INDICATORS = true →
      isValidJob s = true) ∧
    (∀ s : Str, containsAny (lower s) PAUSED_INDICATORS = false →
      (containsAny (lower s) GOAL_INDICATORS = true ∨
       containsAny (lower s) COMPLETED_INDICATORS = true) →
      isValidJob s = false) := by
  constructor
  · intro s h
    unfold isValidJob
    split
    · rename_i hs
      exfalso
      have hnil : s = [] := by
        cases s with
        | nil => rfl
        | cons a t => simp [List.isEmpty] at hs
      rw [hnil] at h
      simp [containsAny, lower] at h
    · simp [h]
  · intro s hp hgc
    unfold isValidJob
    split
    · rfl
    · rcases hgc with hg | hc
      · simp [hp, hg]
      · simp [hp, hc]

/-- C10 witness: a paused text with a completed-tense word is accepted; a
goal-tense text is rejected. -/
theorem isValidJob_tense_markers_witness :
    isValidJob "I paused my side project".data = true ∧
    isValidJob "I want to build an app".data = false :=
  ⟨isValidJob_tense_markers.1 "I paused my side project".data (by decide),
   isValidJob_tense_markers.2 "I want to build an app".data (by decide)
     (Or.inl (by decide))⟩

end ContextCore
